import Mathlib

/-!
# Verification of the DAB adapter core (`dab-adapter-cpp`)

A shallow embedding, in Lean 4, of the three subsystems of the repository:

* the `jsonElement` value model with its parser and serializer
  (`src/unnamed/part_000`),
* the parameter-binding dispatcher and `dabClient` request dispatch with
  its telemetry scheduler (`src/unnamed/part_001`),
* the multi-device bridge (`src/dabBridge.h`).

Strings are modelled as lists of byte values (`List Nat`, each `< 256`):
the C++ code manipulates `std::string` byte-wise (its own `%XX` escaping,
byte-wise character classes), so bytes — not unicode code points — are the
faithful unit.  A C string (`char const *`) is modelled as the list of its
bytes before the terminating NUL; inputs containing an interior NUL byte are
outside the model's domain (the serializer under consideration never emits
byte 0: it escapes it as `%00`).

The C++ `jsonElement` variant also carries `double` (IEEE-754) and the
`decltype(array)` construction-time marker.  Doubles are modelled as the
rationals they denote (every finite IEEE-754 double is exactly a rational);
`std::to_string(double)` — the only operation the serializer applies to the
alternative — is `%f` with six fractional digits, modelled by `dblToString`
below, whose one divergence from the C++ is the tie-breaking of the sixth
fractional digit (the C library rounds the binary double to nearest-even,
the model rounds the rational half away from zero; no theorem below depends
on that digit, only on the emitted `.`, which both always produce).
Non-finite doubles (`inf`, `nan`) and the sign of `-0.0` are outside the
model.  The marker is a construction-time flag that never survives into a
value tree built through the public API.

Machine integers (`int64_t`) are modelled as `Int`; no claim below exercises
integer overflow.
-/

namespace DAB

/-- The `jsonElement` value tree (`src/unnamed/part_000`, the
`std::variant<std::monostate, int64_t, double, std::string, objectType,
arrayType, bool, …>` member), minus the construction marker (see the file
comment).  `jnull` is `std::monostate`; `jdbl` is the `double` alternative,
carrying the rational the finite double denotes; objects are the sorted
unique-key association lists that `std::map<std::string, jsonElement,
std::less<>>` holds (sortedness is imposed where a claim needs it, not by
the type). -/
inductive jsonElement where
  | jnull : jsonElement
  | jbool (b : Bool) : jsonElement
  | jint (i : Int) : jsonElement
  | jdbl (d : ℚ) : jsonElement
  | jstr (s : List Nat) : jsonElement
  | jarr (l : List jsonElement) : jsonElement
  | jobj (l : List (List Nat × jsonElement)) : jsonElement
deriving Repr

/-- The bytes of an ASCII Lean string literal, for readable keys/topics. -/
def bs (s : String) : List Nat := s.data.map Char.toNat

/-- `std::less<std::string>` on byte strings: lexicographic comparison of
unsigned bytes (`char_traits<char>` compares as `unsigned char`). -/
def keyLt : List Nat → List Nat → Bool
  | [], [] => false
  | [], _ :: _ => true
  | _ :: _, [] => false
  | a :: as, b :: bs => if a < b then true else if b < a then false else keyLt as bs

/-- `std::map::operator[]` followed by assignment: insert at the sorted
position, or replace the mapped value when the key is already present. -/
def objInsert : List (List Nat × jsonElement) → List Nat → jsonElement →
    List (List Nat × jsonElement)
  | [], k, v => [(k, v)]
  | (k', v') :: t, k, v =>
    if keyLt k k' then (k, v) :: (k', v') :: t
    else if keyLt k' k then (k', v') :: objInsert t k v
    else (k, v) :: t

/-- `std::map::find` on the association list. -/
def objFind : List (List Nat × jsonElement) → List Nat → Option jsonElement
  | [], _ => none
  | (k', v') :: t, k => if k' = k then some v' else objFind t k

/-- Key lookup on a value: `none` when the value is not an object or the key
is absent. -/
def jsonElement.lookupKey : jsonElement → List Nat → Option jsonElement
  | .jobj l, k => objFind l k
  | _, _ => none

/-- `jsonElement::has` (`src/unnamed/part_000` lines 620-637): true iff the
value is an object, the key is present, and the stored value is not
`std::monostate`. -/
def jsonElement.has (v : jsonElement) (k : List Nat) : Bool :=
  match v.lookupKey k with
  | some .jnull => false
  | some _ => true
  | none => false

/-- The exceptions that can cross `dabClient::dispatch`'s try block:
`dabException{code, text}`, or one of the `char const *` literals the
`jsonElement` accessors throw (modelled with their exact message). -/
inductive cppExc where
  | dab (code : Int) (msg : List Nat) : cppExc
  | cstr (msg : String) : cppExc
deriving Repr

/-- `jsonElement::operator[] const` for a string key (lines 657-676): throws
`"element not found"` unless the value is an object holding a
non-`monostate` element under the key. -/
def jsonElement.getKey (v : jsonElement) (k : List Nat) :
    Except cppExc jsonElement :=
  match v.lookupKey k with
  | some .jnull => .error (.cstr "element not found")
  | some x => .ok x
  | none => .error (.cstr "element not found")

/-- `operator std::string const & () const` (lines 784-791) applied after
`getKey`: throws `"invalid json string value"` on a non-string variant. -/
def jsonElement.asString : jsonElement → Except cppExc (List Nat)
  | .jstr s => .ok s
  | _ => .error (.cstr "invalid json string value")

/-- The mutable `operator[](char const *)` followed by `operator=`:
a non-object value is first replaced by an empty object, then the key is
inserted (or its mapped value replaced) at the sorted position. -/
def jsonElement.setKey (v : jsonElement) (k : List Nat) (x : jsonElement) :
    jsonElement :=
  match v with
  | .jobj l => .jobj (objInsert l k x)
  | _ => .jobj [(k, x)]

/-! ## Serialization (`jsonElement::serialize`, lines 891-986) -/

/-- The source's `"0123456789ABCDEF"` table as byte values. -/
def hexTable : List Nat :=
  [48, 49, 50, 51, 52, 53, 54, 55, 56, 57, 65, 66, 67, 68, 69, 70]

/-- The bytes emitted for one byte of a string value (the `switch` of the
string case, lines 941-971).  `it < 32 || it > 127` on a signed `char` is
true exactly for byte values `< 32` or `> 127` (bytes `0x80`-`0xFF` are
negative chars), and the sign extension in `(it & 0xF0) >> 4` and
`it & 0x0F` still yields the byte's own nibbles. -/
def serStrByte (b : Nat) : List Nat :=
  if b = 34 then [92, 34]
  else if b = 92 then [92, 92]
  else if b = 13 then [92, 114]
  else if b = 10 then [92, 110]
  else if b = 9 then [92, 116]
  else if b < 32 ∨ 127 < b then
    [37, hexTable.getD (b / 16 % 16) 0, hexTable.getD (b % 16) 0]
  else [b]

/-- Decimal digit bytes of a natural number, most significant first
(`std::to_string` on the non-negative part). -/
def natDigits (n : Nat) : List Nat :=
  if _ : n < 10 then [48 + n] else natDigits (n / 10) ++ [48 + n % 10]
termination_by n
decreasing_by exact Nat.div_lt_self (by omega) (by omega)

/-- `std::to_string(int64_t)`: optional minus sign, then decimal digits. -/
def intDecimal (i : Int) : List Nat :=
  if i < 0 then 45 :: natDigits i.natAbs else natDigits i.natAbs

/-- Decimal digit bytes of a natural number with an explicit fuel bound
(`natDigits` restated so concrete evaluations reduce definitionally; any
fuel of at least the digit count gives the same digits). -/
def natDigitsF : Nat → Nat → List Nat
  | 0, _ => []
  | fuel + 1, n =>
    if n < 10 then [48 + n] else natDigitsF fuel (n / 10) ++ [48 + n % 10]

/-- `std::to_string(double)` on the rational a finite double denotes:
`%f` — optional minus sign, the integer-part digits, `.`, then exactly six
fractional digits.  `scaled` is `|d| * 10^6` rounded to an integer (the model
rounds half away from zero where the C library rounds the underlying binary
double to nearest; see the file comment); the fractional digits are the last
six digits of `10^6 + scaled % 10^6`, zero-padded by construction. -/
def dblToString (d : ℚ) : List Nat :=
  let scaled : Nat := (d.num.natAbs * 2000000 + d.den) / (2 * d.den)
  let digits := natDigitsF (scaled / 1000000 + 1) (scaled / 1000000)
    ++ 46 :: (natDigitsF 7 (1000000 + scaled % 1000000)).drop 1
  if d.num < 0 then 45 :: digits else digits

/-- A key as emitted by the object case: quoted when `quoteNames`, bytes raw. -/
def serializeKey (q : Bool) (k : List Nat) : List Nat :=
  if q then 34 :: k ++ [34] else k

mutual
/-- `jsonElement::serialize(buff, quoteNames)`: compact output; objects in
stored (sorted) key order, keys quoted iff `quoteNames` and emitted raw
(no escaping); string values escaped byte-wise by `serStrByte`. -/
def serialize (q : Bool) : jsonElement → List Nat
  | .jobj l => 123 :: serializeMembers q l ++ [125]
  | .jarr l => 91 :: serializeElems q l ++ [93]
  | .jint i => intDecimal i
  | .jdbl d => dblToString d
  | .jstr s => 34 :: s.foldr (fun b acc => serStrByte b ++ acc) [] ++ [34]
  | .jbool true => [116, 114, 117, 101]
  | .jbool false => [102, 97, 108, 115, 101]
  | .jnull => [110, 117, 108, 108]
termination_by structural v => v
def serializeElems (q : Bool) : List jsonElement → List Nat
  | [] => []
  | x :: xs => serialize q x ++ serializeElemsTail q xs
termination_by structural l => l
def serializeElemsTail (q : Bool) : List jsonElement → List Nat
  | [] => []
  | x :: xs => 44 :: serialize q x ++ serializeElemsTail q xs
termination_by structural l => l
def serializeMembers (q : Bool) : List (List Nat × jsonElement) → List Nat
  | [] => []
  | (k, v) :: xs =>
    serializeKey q k ++ 58 :: serialize q v ++ serializeMembersTail q xs
termination_by structural l => l
def serializeMembersTail (q : Bool) : List (List Nat × jsonElement) → List Nat
  | [] => []
  | (k, v) :: xs =>
    44 :: serializeKey q k ++ 58 :: serialize q v ++ serializeMembersTail q xs
termination_by structural l => l
end

/-! ## Parsing (`jsonElement::jsonElement(char const **)`, lines 181-399,
and `jsonParser`, lines 1035-1046)

The recursive-descent constructor is totalized with a fuel parameter that
only ever decreases; `jsonParser` below supplies `input.length + 1`, which
covers every terminating run of the C++ original on the inputs the theorems
evaluate (each unit of fuel accompanies at least one consumed input byte). -/

/-- `jsonElement::isSpace` (lines 989-996). -/
def isSpace (c : Nat) : Bool := c = 32 ∨ c = 9 ∨ c = 13 ∨ c = 10

/-- `jsonElement::isSymbolB` (lines 998-1005). -/
def isSymbolB (c : Nat) : Bool :=
  (97 ≤ c ∧ c ≤ 122) ∨ (65 ≤ c ∧ c ≤ 90) ∨ c = 95

/-- `jsonElement::isNum` (lines 1007-1014): digits and the two sign marks
(note: neither `.` nor `e` is accepted by `isNum`). -/
def isNum (c : Nat) : Bool := (48 ≤ c ∧ c ≤ 57) ∨ c = 43 ∨ c = 45

/-- `jsonElement::isNumB` (lines 1016-1023). -/
def isNumB (c : Nat) : Bool := isNum c ∨ c = 101

/-- `jsonElement::isSymbol` (lines 1025-1032). -/
def isSymbol (c : Nat) : Bool := isSymbolB c ∨ (48 ≤ c ∧ c ≤ 57)

/-- The `while (isSpace(**str)) (*str)++` idiom. -/
def skipSpaces : List Nat → List Nat
  | c :: t => if isSpace c then skipSpaces t else c :: t
  | [] => []

/-- The string-value scan (lines 314-357): collect bytes up to the closing
quote, mapping `\" \r \n \t` pairs to their byte and any other `\X` pair to
the literal `X`; running out of input is the `throw "missing \""`. -/
def parseStringBody : List Nat → Except String (List Nat × List Nat)
  | [] => .error "missing quote"
  | 34 :: t => .ok ([], t)
  | 92 :: c :: t =>
    let ch := if c = 114 then 13 else if c = 110 then 10
              else if c = 116 then 9 else c
    (parseStringBody t).map (fun p => (ch :: p.1, p.2))
  | c :: t => (parseStringBody t).map (fun p => (c :: p.1, p.2))

/-- The quoted object-key scan (lines 230-244): raw bytes up to the closing
quote, no escape processing. -/
def parseQuotedName : List Nat → Except String (List Nat × List Nat)
  | [] => .error "missing quote"
  | 34 :: t => .ok ([], t)
  | c :: t => (parseQuotedName t).map (fun p => (c :: p.1, p.2))

/-- `while (isNum(**str))` collection of number bytes (lines 363-371). -/
def spanNum : List Nat → List Nat × List Nat
  | [] => ([], [])
  | c :: t =>
    if isNum c then
      let p := spanNum t
      (c :: p.1, p.2)
    else ([], c :: t)

/-- `while (isSymbolB(**str))` collection of an unquoted key (lines 252-255). -/
def spanSymbol : List Nat → List Nat × List Nat
  | [] => ([], [])
  | c :: t =>
    if isSymbolB c then
      let p := spanSymbol t
      (c :: p.1, p.2)
    else ([], c :: t)

/-- Value of a maximal leading digit run (the digit-consuming core of
`std::stoll`); `none` when no leading digit exists (`std::invalid_argument`). -/
def leadDigitsVal (cs : List Nat) : Option Nat :=
  match cs with
  | c :: _ =>
    if 48 ≤ c ∧ c ≤ 57 then
      some ((cs.takeWhile fun b => 48 ≤ b ∧ b ≤ 57).foldl
        (fun acc b => acc * 10 + (b - 48)) 0)
    else none
  | [] => none

/-- `std::stoll` on the collected number bytes: optional single sign, then a
maximal digit run (further collected bytes are ignored, as `stoll` stops at
the first non-digit).  Overflow is not modelled (no claim exercises it). -/
def stollModel (cs : List Nat) : Option Int :=
  match cs with
  | 45 :: t => (leadDigitsVal t).map (fun n => -(Int.ofNat n))
  | 43 :: t => (leadDigitsVal t).map Int.ofNat
  | t => (leadDigitsVal t).map Int.ofNat

/-- The number branch (lines 358-379).  The `isFloat` flag is set only for a
collected `.` or `e` byte, but `isNum` admits neither, so the `stod` branch
is unreachable; the model reports it as an error it can never produce. -/
def parseNumber (s : List Nat) : Except String (jsonElement × List Nat) :=
  let p := spanNum s
  if p.1.any (fun c => c = 46 ∨ c = 101) then .error "unreachable stod branch"
  else
    match stollModel p.1 with
    | some i => .ok (.jint i, p.2)
    | none => .error "stoll: invalid argument"

/-- The object-key scan (lines 229-256): a quoted key, or an unquoted key
that must start with `isSymbol` and extends through `isSymbolB` bytes. -/
def parseName (s : List Nat) : Except String (List Nat × List Nat) :=
  match s with
  | 34 :: t => parseQuotedName t
  | c :: t =>
    if isSymbol c then .ok (spanSymbol (c :: t))
    else .error "invalid json symbol value"
  | [] => .error "invalid json symbol value"

mutual
/-- The value constructor `jsonElement(char const **str)`: dispatch on the
first non-space byte exactly as the chain of `if` branches at lines 187-398
(object, array, string, number by `isNumB`, `true`, `false`, `null`, else
`throw "missing \""`). -/
def parseValue : Nat → List Nat → Except String (jsonElement × List Nat)
  | 0, _ => .error "out of fuel"
  | fuel + 1, s =>
    match skipSpaces s with
    | 123 :: t => parseObjectLoop fuel true [] t
    | 91 :: t => parseArrayLoop fuel true [] t
    | 34 :: t => (parseStringBody t).map (fun p => (.jstr p.1, p.2))
    | c :: t =>
      if isNumB c then parseNumber (c :: t)
      else
        match c :: t with
        | 116 :: 114 :: 117 :: 101 :: r => .ok (.jbool true, r)
        | 102 :: 97 :: 108 :: 115 :: 101 :: r => .ok (.jbool false, r)
        | 110 :: 117 :: 108 :: 108 :: r => .ok (.jnull, r)
        | _ => .error "missing quote"
    | [] => .error "missing quote"
termination_by structural fuel => fuel
/-- The object-member loop (lines 196-274): terminator `}` (also allowed
right after a comma), `,` required between members; a member is a quoted or
unquoted key, `:`, a recursive value, accumulated through `obj[name] = …`
(sorted insert-or-replace).  The member block appears inlined at both entry
points so the recursion is structural on the fuel; `parseMember` below
restates it as a standalone function. -/
def parseObjectLoop (fuel : Nat) (first : Bool)
    (acc : List (List Nat × jsonElement)) (s : List Nat) :
    Except String (jsonElement × List Nat) :=
  match fuel with
  | 0 => .error "out of fuel"
  | fuel + 1 =>
    match skipSpaces s with
    | 125 :: t => .ok (.jobj acc, t)
    | s1 =>
      if first then
        match parseName s1 with
        | .error e => .error e
        | .ok (name, s3) =>
          match skipSpaces s3 with
          | 58 :: s4 =>
            match parseValue fuel (skipSpaces s4) with
            | .error e => .error e
            | .ok (v, s5) => parseObjectLoop fuel false (objInsert acc name v) s5
          | _ => .error "missing name/value separator"
      else
        match s1 with
        | 44 :: t =>
          match skipSpaces t with
          | 125 :: r => .ok (.jobj acc, r)
          | s2 =>
            match parseName s2 with
            | .error e => .error e
            | .ok (name, s3) =>
              match skipSpaces s3 with
              | 58 :: s4 =>
                match parseValue fuel (skipSpaces s4) with
                | .error e => .error e
                | .ok (v, s5) =>
                  parseObjectLoop fuel false (objInsert acc name v) s5
              | _ => .error "missing name/value separator"
        | _ => .error "missing comma"
termination_by structural fuel
/-- The array-element loop (lines 275-313): terminator `]`, `,` required
between elements (no trailing comma), recursive value, `push_back`. -/
def parseArrayLoop (fuel : Nat) (first : Bool) (acc : List jsonElement)
    (s : List Nat) : Except String (jsonElement × List Nat) :=
  match fuel with
  | 0 => .error "out of fuel"
  | fuel + 1 =>
    match skipSpaces s with
    | 93 :: t => .ok (.jarr acc, t)
    | s1 =>
      match
        (if first then .ok s1
         else
           match s1 with
           | 44 :: t => .ok (skipSpaces t)
           | _ => .error "missing comma" : Except String (List Nat))
      with
      | .error e => .error e
      | .ok s2 =>
        match parseValue fuel s2 with
        | .error e => .error e
        | .ok (v, s3) => parseArrayLoop fuel false (acc ++ [v]) s3
termination_by structural fuel
end

/-- One object member (lines 228-273), as inlined twice in
`parseObjectLoop`: quoted or unquoted key, `:`, recursive value,
accumulation through `obj[name] = …`, then back to the loop with
`first = false`. -/
def parseMember (fuel : Nat) (acc : List (List Nat × jsonElement))
    (s : List Nat) : Except String (jsonElement × List Nat) :=
  match parseName s with
  | .error e => .error e
  | .ok (name, s3) =>
    match skipSpaces s3 with
    | 58 :: s4 =>
      match parseValue fuel (skipSpaces s4) with
      | .error e => .error e
      | .ok (v, s5) => parseObjectLoop fuel false (objInsert acc name v) s5
    | _ => .error "missing name/value separator"

/-- `jsonParser` (lines 1035-1046): parse one value, then require only
whitespace to the end of the C string. -/
def jsonParser (s : List Nat) : Except String jsonElement :=
  match parseValue (s.length + 1) s with
  | .error e => .error e
  | .ok (v, rest) =>
    match skipSpaces rest with
    | [] => .ok v
    | _ => .error "invalid json"

/-! ## The exact round-trip fragment

`good` delimits the class of values for which `jsonParser ∘ serialize` is
proved to be the identity: no doubles (their serialized form always carries
a `.`, which `isNum` rejects, so no serialized double ever re-parses — see
the C2 counterexample), string bytes drawn from
`{TAB, LF, CR} ∪ [0x20, 0x7F]` (anything else is emitted as `%XX`, which
the parser reads back literally — the lossy concession), object keys
sorted, quote-free and NUL-free (keys are emitted raw). -/

/-- String bytes that round-trip exactly: the three named escapes and the
bytes the serializer emits literally or as symmetric escapes. -/
def goodStrByte (b : Nat) : Bool := b = 9 ∨ b = 10 ∨ b = 13 ∨ (32 ≤ b ∧ b ≤ 127)

/-- Key bytes that round-trip exactly: raw-emitted bytes other than the
quote (which would end the key early) and NUL (C-string terminator). -/
def goodKeyByte (b : Nat) : Bool := b < 256 ∧ b ≠ 34 ∧ b ≠ 0

/-- Adjacent-free pairwise sortedness of an association list's keys under
`keyLt` (what `std::map` maintains). -/
def sortedKeys : List (List Nat × jsonElement) → Bool
  | [] => true
  | p :: t => t.all (fun q => keyLt p.1 q.1) && sortedKeys t

mutual
/-- Membership in the exact round-trip fragment (see section comment). -/
def good : jsonElement → Bool
  | .jnull => true
  | .jbool _ => true
  | .jint _ => true
  | .jdbl _ => false
  | .jstr s => s.all goodStrByte
  | .jarr l => goodElems l
  | .jobj l => sortedKeys l && goodMembers l
termination_by structural v => v
def goodElems : List jsonElement → Bool
  | [] => true
  | x :: xs => good x && goodElems xs
termination_by structural l => l
def goodMembers : List (List Nat × jsonElement) → Bool
  | [] => true
  | (k, v) :: xs => k.all goodKeyByte && good v && goodMembers xs
termination_by structural l => l
end

/-- A remainder that cannot extend a number: empty input or a head that
`isNum` rejects.  Every delimiter of the serializer (`,` `]` `}`, end of
input) qualifies. -/
def numDelim : List Nat → Bool
  | [] => true
  | c :: _ => !(isNum c)

theorem skipSpaces_not {c : Nat} (h : isSpace c = false) (t : List Nat) :
    skipSpaces (c :: t) = c :: t := by
  simp [skipSpaces, h]

theorem keyLt_asymm : ∀ a b : List Nat, keyLt a b = true → keyLt b a = false
  | [], [], h => by simp [keyLt] at h
  | [], _ :: _, _ => by simp [keyLt]
  | _ :: _, [], h => by simp [keyLt] at h
  | a :: as, b :: bs, h => by
    simp only [keyLt] at h ⊢
    by_cases hab : a < b
    · have hba : ¬ b < a := by omega
      simp [hab, hba]
    · by_cases hba : b < a
      · simp [hab, hba] at h
      · have hba' : ¬ b < a := hba
        simp only [if_neg hab, if_neg hba] at h
        simp [hab, hba, keyLt_asymm as bs h]

theorem objInsert_append {k : List Nat} {v : jsonElement} :
    ∀ acc : List (List Nat × jsonElement),
      (∀ p ∈ acc, keyLt p.1 k = true) → objInsert acc k v = acc ++ [(k, v)]
  | [], _ => rfl
  | (k', v') :: t, h => by
    have hk' : keyLt k' k = true := h (k', v') (by simp)
    have h1 : keyLt k k' = false := keyLt_asymm _ _ hk'
    simp only [objInsert, h1, hk', if_false, if_true, Bool.false_eq_true,
      List.cons_append]
    exact congrArg _ (objInsert_append t (fun p hp => h p (by simp [hp])))

theorem sortedKeys_mid {k : List Nat} {v : jsonElement}
    {xs : List (List Nat × jsonElement)} :
    ∀ acc, sortedKeys (acc ++ (k, v) :: xs) = true →
      ∀ p ∈ acc, keyLt p.1 k = true
  | [], _ => by simp
  | a :: t, h => by
    simp only [List.cons_append, sortedKeys, Bool.and_eq_true, List.all_eq_true] at h
    intro p hp
    rcases List.mem_cons.mp hp with rfl | hp'
    · exact h.1 (k, v) (by simp)
    · exact sortedKeys_mid t h.2 p hp'

/-! ### Number lemmas -/

theorem natDigits_unfold (n : Nat) :
    natDigits n = if n < 10 then [48 + n] else natDigits (n / 10) ++ [48 + n % 10] := by
  rw [natDigits]
  split <;> rfl

theorem natDigits_ne_nil (n : Nat) : natDigits n ≠ [] := by
  rw [natDigits_unfold]
  split <;> simp

theorem natDigits_digits (n : Nat) : ∀ b ∈ natDigits n, 48 ≤ b ∧ b ≤ 57 := by
  induction n using Nat.strong_induction_on with
  | _ n ih =>
    rw [natDigits_unfold]
    by_cases h : n < 10
    · simp only [if_pos h, List.mem_singleton]
      rintro b rfl; omega
    · simp only [if_neg h, List.mem_append, List.mem_singleton]
      rintro b (hb | rfl)
      · exact ih (n / 10) (Nat.div_lt_self (by omega) (by omega)) b hb
      · have := Nat.mod_lt n (show 0 < 10 by omega)
        omega

theorem foldl_natDigits (n : Nat) :
    (natDigits n).foldl (fun acc b => acc * 10 + (b - 48)) 0 = n := by
  induction n using Nat.strong_induction_on with
  | _ n ih =>
    rw [natDigits_unfold]
    by_cases h : n < 10
    · simp [if_pos h]
    · simp only [if_neg h, List.foldl_append, List.foldl_cons, List.foldl_nil,
        ih (n / 10) (Nat.div_lt_self (by omega) (by omega))]
      omega

theorem takeWhile_all {p : Nat → Bool} :
    ∀ l : List Nat, (∀ b ∈ l, p b = true) → l.takeWhile p = l
  | [], _ => rfl
  | c :: t, h => by
    simp only [List.takeWhile_cons, h c (by simp), if_true]
    exact congrArg _ (takeWhile_all t (fun b hb => h b (by simp [hb])))

theorem leadDigitsVal_natDigits (n : Nat) :
    leadDigitsVal (natDigits n) = some n := by
  obtain ⟨c, t, hct⟩ : ∃ c t, natDigits n = c :: t := by
    cases h : natDigits n with
    | nil => exact absurd h (natDigits_ne_nil n)
    | cons c t => exact ⟨c, t, rfl⟩
  have hdig := natDigits_digits n
  have hc : 48 ≤ c ∧ c ≤ 57 := hdig c (by rw [hct]; simp)
  rw [leadDigitsVal.eq_def, hct]
  have htw : ((c :: t).takeWhile fun b => decide (48 ≤ b ∧ b ≤ 57)) = c :: t := by
    apply takeWhile_all
    intro b hb
    have := hdig b (by rw [hct]; exact hb)
    simp only [decide_eq_true_eq]
    exact this
  simp only [if_pos hc, htw]
  have := foldl_natDigits n
  rw [hct] at this
  simp [this]

theorem isNum_natDigits (n : Nat) : ∀ b ∈ natDigits n, isNum b = true := by
  intro b hb
  have := natDigits_digits n b hb
  simp only [isNum, decide_eq_true_eq]
  omega

theorem spanNum_all : ∀ ds : List Nat, (∀ c ∈ ds, isNum c = true) →
    ∀ rest, numDelim rest = true → spanNum (ds ++ rest) = (ds, rest)
  | [], _, rest, hr => by
    cases rest with
    | nil => rfl
    | cons c t =>
      simp only [numDelim, Bool.not_eq_true'] at hr
      simp [spanNum, hr]
  | d :: ds, h, rest, hr => by
    have hd : isNum d = true := h d (by simp)
    have ih := spanNum_all ds (fun c hc => h c (by simp [hc])) rest hr
    simp only [List.cons_append, spanNum, hd, if_true, List.append_eq, ih]

theorem stollModel_digit {c : Nat} (hc : 48 ≤ c ∧ c ≤ 57) (t : List Nat) :
    stollModel (c :: t) = (leadDigitsVal (c :: t)).map Int.ofNat := by
  rw [stollModel.eq_def]
  split
  · rename_i heq; injection heq with h1 _; omega
  · rename_i heq; injection heq with h1 _; omega
  · rfl

theorem natDigits_not_floatmark (n : Nat) :
    (natDigits n).any (fun c => decide (c = 46 ∨ c = 101)) = false := by
  rw [List.any_eq_false]
  intro b hb
  have := natDigits_digits n b hb
  simp only [decide_eq_true_eq]
  omega

theorem stollModel_intDecimal (i : Int) : stollModel (intDecimal i) = some i := by
  by_cases hi : i < 0
  · simp only [intDecimal, if_pos hi, stollModel, leadDigitsVal_natDigits,
      Option.map_some']
    have : -(Int.ofNat i.natAbs) = i := by
      simp only [Int.ofNat_eq_coe]; omega
    rw [this]
  · obtain ⟨c, t, hct⟩ : ∃ c t, natDigits i.natAbs = c :: t := by
      cases h : natDigits i.natAbs with
      | nil => exact absurd h (natDigits_ne_nil _)
      | cons c t => exact ⟨c, t, rfl⟩
    have hc := natDigits_digits i.natAbs c (by rw [hct]; simp)
    simp only [intDecimal, if_neg hi, hct]
    rw [stollModel_digit hc, ← hct, leadDigitsVal_natDigits, Option.map_some']
    have : Int.ofNat i.natAbs = i := by
      simp only [Int.ofNat_eq_coe]; omega
    rw [this]

theorem intDecimal_isNum (i : Int) : ∀ c ∈ intDecimal i, isNum c = true := by
  intro c hc
  by_cases hi : i < 0
  · simp only [intDecimal, if_pos hi, List.mem_cons] at hc
    rcases hc with rfl | hc
    · simp [isNum]
    · exact isNum_natDigits _ c hc
  · simp only [intDecimal, if_neg hi] at hc
    exact isNum_natDigits _ c hc

theorem intDecimal_not_floatmark (i : Int) :
    (intDecimal i).any (fun c => decide (c = 46 ∨ c = 101)) = false := by
  rw [List.any_eq_false]
  intro b hb
  have := intDecimal_isNum i b hb
  simp only [isNum, decide_eq_true_eq] at this ⊢
  omega

theorem parseNumber_intDecimal (i : Int) (rest : List Nat)
    (hr : numDelim rest = true) :
    parseNumber (intDecimal i ++ rest) = .ok (.jint i, rest) := by
  have hspan : spanNum (intDecimal i ++ rest) = (intDecimal i, rest) :=
    spanNum_all _ (intDecimal_isNum i) rest hr
  simp only [parseNumber, hspan, intDecimal_not_floatmark, Bool.false_eq_true,
    if_false, stollModel_intDecimal]

/-! ### String lemmas -/

/-- The byte-escape fold used by the string case of `serialize`. -/
def strEscape (s : List Nat) : List Nat :=
  s.foldr (fun b acc => serStrByte b ++ acc) []

theorem parseStringBody_plain {b : Nat} (h34 : b ≠ 34) (h92 : b ≠ 92)
    (t : List Nat) :
    parseStringBody (b :: t) = (parseStringBody t).map (fun p => (b :: p.1, p.2)) := by
  rw [parseStringBody.eq_def]
  split
  · rename_i heq; exact absurd heq (by simp)
  · rename_i heq
    injection heq with h1 _
    exact absurd h1 h34
  · rename_i heq
    injection heq with h1 _
    exact absurd h1 h92
  · rename_i c' t' heq
    injection heq with h1 h2
    subst h1; subst h2; rfl

theorem parseStringBody_strEscape :
    ∀ s : List Nat, (∀ b ∈ s, goodStrByte b = true) → ∀ rest,
      parseStringBody (strEscape s ++ 34 :: rest) = .ok (s, rest)
  | [], _, rest => by simp [strEscape, parseStringBody]
  | b :: s, h, rest => by
    have hb : goodStrByte b = true := h b (by simp)
    have ih := parseStringBody_strEscape s (fun c hc => h c (by simp [hc])) rest
    simp only [goodStrByte, decide_eq_true_eq] at hb
    have hesc : strEscape (b :: s) = serStrByte b ++ strEscape s := by
      simp [strEscape]
    rw [hesc, List.append_assoc]
    rcases hb with rfl | rfl | rfl | hb
    · -- TAB: escaped as \t (bytes 92 116)
      show parseStringBody (92 :: 116 :: (strEscape s ++ 34 :: rest)) = _
      rw [parseStringBody.eq_def]
      simp only [ih]
      rfl
    · -- LF: escaped as \n (bytes 92 110)
      show parseStringBody (92 :: 110 :: (strEscape s ++ 34 :: rest)) = _
      rw [parseStringBody.eq_def]
      simp only [ih]
      rfl
    · -- CR: escaped as \r (bytes 92 114)
      show parseStringBody (92 :: 114 :: (strEscape s ++ 34 :: rest)) = _
      rw [parseStringBody.eq_def]
      simp only [ih]
      rfl
    · by_cases h34 : b = 34
      · subst h34
        show parseStringBody (92 :: 34 :: (strEscape s ++ 34 :: rest)) = _
        rw [parseStringBody.eq_def]
        simp only [ih]
        rfl
      · by_cases h92 : b = 92
        · subst h92
          show parseStringBody (92 :: 92 :: (strEscape s ++ 34 :: rest)) = _
          rw [parseStringBody.eq_def]
          simp only [ih]
          rfl
        · have hser : serStrByte b = [b] := by
            simp only [serStrByte, h34, h92, if_false]
            have h13 : ¬ b = 13 := by omega
            have h10 : ¬ b = 10 := by omega
            have h9 : ¬ b = 9 := by omega
            have hrange : ¬ (b < 32 ∨ 127 < b) := by omega
            simp [h13, h10, h9, hrange]
          rw [hser]
          show parseStringBody (b :: (strEscape s ++ 34 :: rest)) = _
          rw [parseStringBody_plain h34 h92, ih]
          rfl

theorem parseQuotedName_raw :
    ∀ k : List Nat, (∀ b ∈ k, b ≠ 34) → ∀ rest,
      parseQuotedName (k ++ 34 :: rest) = .ok (k, rest)
  | [], _, rest => by simp [parseQuotedName]
  | b :: k, h, rest => by
    have hb : b ≠ 34 := h b (by simp)
    have ih := parseQuotedName_raw k (fun c hc => h c (by simp [hc])) rest
    rw [List.cons_append, parseQuotedName.eq_def]
    split
    · rename_i heq; exact absurd heq (by simp)
    · rename_i heq
      injection heq with h1 _
      exact absurd h1 hb
    · rename_i c' t' heq
      injection heq with h1 h2
      subst h1
      rw [← h2, ih]
      rfl

/-! ### Serializer head and length facts -/

theorem natDigitsF_digits : ∀ (fuel n : Nat), ∀ c ∈ natDigitsF fuel n,
    48 ≤ c ∧ c ≤ 57
  | 0, _, c, hc => absurd hc (by simp [natDigitsF])
  | fuel + 1, n, c, hc => by
    rw [natDigitsF] at hc
    by_cases h : n < 10
    · rw [if_pos h] at hc
      simp only [List.mem_singleton] at hc
      omega
    · rw [if_neg h] at hc
      rcases List.mem_append.1 hc with h1 | h1
      · exact natDigitsF_digits fuel (n / 10) c h1
      · simp only [List.mem_singleton] at h1
        have := Nat.mod_lt n (show 0 < 10 by omega)
        omega

theorem natDigitsF_cons (fuel n : Nat) : ∃ c t,
    natDigitsF (fuel + 1) n = c :: t ∧ 48 ≤ c ∧ c ≤ 57 := by
  have hne : natDigitsF (fuel + 1) n ≠ [] := by
    rw [natDigitsF]
    by_cases h : n < 10
    · simp [h]
    · simp [h]
  obtain ⟨c, t, hct⟩ := List.exists_cons_of_ne_nil hne
  exact ⟨c, t, hct, natDigitsF_digits (fuel + 1) n c (by rw [hct]; simp)⟩

/-- `dblToString` starts with `-` or a decimal digit. -/
theorem dblToString_head (d : ℚ) : ∃ c t, dblToString d = c :: t ∧
    (c = 45 ∨ 48 ≤ c ∧ c ≤ 57) := by
  by_cases hneg : d.num < 0
  · refine ⟨45, natDigitsF ((d.num.natAbs * 2000000 + d.den) / (2 * d.den)
        / 1000000 + 1) ((d.num.natAbs * 2000000 + d.den) / (2 * d.den)
        / 1000000) ++ 46 :: (natDigitsF 7 (1000000 + (d.num.natAbs * 2000000
        + d.den) / (2 * d.den) % 1000000)).drop 1, ?_, Or.inl rfl⟩
    simp only [dblToString, if_pos hneg]
  · obtain ⟨c, t, hct, hc⟩ :=
      natDigitsF_cons (((d.num.natAbs * 2000000 + d.den) / (2 * d.den))
        / 1000000) (((d.num.natAbs * 2000000 + d.den) / (2 * d.den)) / 1000000)
    refine ⟨c, t ++ 46 :: (natDigitsF 7 (1000000 + (d.num.natAbs * 2000000
        + d.den) / (2 * d.den) % 1000000)).drop 1, ?_, Or.inr hc⟩
    simp only [dblToString, hneg, if_false]
    rw [hct]
    rfl

theorem serialize_head (q : Bool) (v : jsonElement) :
    ∃ c t, serialize q v = c :: t ∧ isSpace c = false ∧ c ≠ 93 ∧ c ≠ 125 := by
  cases v with
  | jnull => exact ⟨110, _, rfl, by decide, by decide, by decide⟩
  | jbool b =>
    cases b with
    | true => exact ⟨116, _, rfl, by decide, by decide, by decide⟩
    | false => exact ⟨102, _, rfl, by decide, by decide, by decide⟩
  | jstr s => exact ⟨34, _, rfl, by decide, by decide, by decide⟩
  | jarr l => exact ⟨91, _, rfl, by decide, by decide, by decide⟩
  | jobj l => exact ⟨123, _, rfl, by decide, by decide, by decide⟩
  | jdbl d =>
    obtain ⟨c, t, hct, hc⟩ := dblToString_head d
    refine ⟨c, t, hct, ?_, ?_, ?_⟩
    · simp only [isSpace, decide_eq_false_iff_not]
      rcases hc with h | h <;> omega
    · rcases hc with h | h <;> omega
    · rcases hc with h | h <;> omega
  | jint i =>
    by_cases hi : i < 0
    · refine ⟨45, natDigits i.natAbs, ?_, by decide, by decide, by decide⟩
      simp [serialize, intDecimal, hi]
    · obtain ⟨c, t, hct⟩ : ∃ c t, natDigits i.natAbs = c :: t := by
        cases h : natDigits i.natAbs with
        | nil => exact absurd h (natDigits_ne_nil _)
        | cons c t => exact ⟨c, t, rfl⟩
      have hc := natDigits_digits i.natAbs c (by rw [hct]; simp)
      refine ⟨c, t, ?_, ?_, ?_, ?_⟩
      · simp [serialize, intDecimal, hi, hct]
      · simp only [isSpace, decide_eq_false_iff_not]
        omega
      · omega
      · omega

theorem serialize_length_pos (q : Bool) (v : jsonElement) :
    1 ≤ (serialize q v).length := by
  obtain ⟨c, t, h, -, -, -⟩ := serialize_head q v
  simp [h]

/-- `skipSpaces` is the identity in front of any serialized value. -/
theorem skipSpaces_serialize (q : Bool) (v : jsonElement) (x : List Nat) :
    skipSpaces (serialize q v ++ x) = serialize q v ++ x := by
  obtain ⟨c, t, h, hsp, -, -⟩ := serialize_head q v
  rw [h, List.cons_append, skipSpaces_not hsp]

theorem numDelim_elemsTail (q : Bool) (l : List jsonElement) (b : Nat)
    (hb : isNum b = false) (rest : List Nat) :
    numDelim (serializeElemsTail q l ++ b :: rest) = true := by
  cases l with
  | nil => simp [serializeElemsTail, numDelim, hb]
  | cons x xs => simp [serializeElemsTail, numDelim, isNum]

theorem numDelim_membersTail (q : Bool) (l : List (List Nat × jsonElement))
    (b : Nat) (hb : isNum b = false) (rest : List Nat) :
    numDelim (serializeMembersTail q l ++ b :: rest) = true := by
  cases l with
  | nil => simp [serializeMembersTail, numDelim, hb]
  | cons x xs =>
    obtain ⟨k, v⟩ := x
    simp [serializeMembersTail, numDelim, isNum]


/-! ### Parser step lemmas (match reductions at variable heads) -/

theorem parseValue_numpath {c : Nat} (fuel : Nat) (t : List Nat)
    (hsp : isSpace c = false) (h123 : c ≠ 123) (h91 : c ≠ 91) (h34 : c ≠ 34)
    (hnb : isNumB c = true) :
    parseValue (fuel + 1) (c :: t) = parseNumber (c :: t) := by
  simp only [parseValue]
  rw [skipSpaces_not hsp]
  split
  · rename_i heq; injection heq with h1 _; exact absurd h1 h123
  · rename_i heq; injection heq with h1 _; exact absurd h1 h91
  · rename_i heq; injection heq with h1 _; exact absurd h1 h34
  · rename_i c' t' heq
    injection heq with h1 h2
    subst h1; subst h2
    rw [if_pos hnb]
  · rename_i heq; exact absurd heq (by simp)

theorem parseValue_quote (fuel : Nat) (t : List Nat) :
    parseValue (fuel + 1) (34 :: t) =
      (parseStringBody t).map (fun p => (.jstr p.1, p.2)) := by
  simp [parseValue, skipSpaces, isSpace]

theorem parseValue_obrk (fuel : Nat) (t : List Nat) :
    parseValue (fuel + 1) (91 :: t) = parseArrayLoop fuel true [] t := by
  simp [parseValue, skipSpaces, isSpace]

theorem parseValue_obrace (fuel : Nat) (t : List Nat) :
    parseValue (fuel + 1) (123 :: t) = parseObjectLoop fuel true [] t := by
  simp [parseValue, skipSpaces, isSpace]

theorem parseArrayLoop_first {c : Nat} (fuel : Nat) (acc : List jsonElement)
    (t : List Nat) (hsp : isSpace c = false) (h93 : c ≠ 93) :
    parseArrayLoop (fuel + 1) true acc (c :: t) =
      match parseValue fuel (c :: t) with
      | .error e => .error e
      | .ok (v, s3) => parseArrayLoop fuel false (acc ++ [v]) s3 := by
  simp only [parseArrayLoop]
  rw [skipSpaces_not hsp]
  split
  · rename_i heq; injection heq with h1 _; exact absurd h1 h93
  · simp

theorem parseArrayLoop_comma (fuel : Nat) (acc : List jsonElement)
    (t : List Nat) :
    parseArrayLoop (fuel + 1) false acc (44 :: t) =
      match parseValue fuel (skipSpaces t) with
      | .error e => .error e
      | .ok (v, s3) => parseArrayLoop fuel false (acc ++ [v]) s3 := by
  simp [parseArrayLoop, skipSpaces, isSpace]

theorem parseObjectLoop_first {c : Nat} (fuel : Nat)
    (acc : List (List Nat × jsonElement)) (t : List Nat)
    (hsp : isSpace c = false) (h125 : c ≠ 125) :
    parseObjectLoop (fuel + 1) true acc (c :: t) = parseMember fuel acc (c :: t) := by
  simp only [parseObjectLoop]
  rw [skipSpaces_not hsp]
  split
  · rename_i heq; injection heq with h1 _; exact absurd h1 h125
  · rw [if_pos trivial]
    rfl

theorem parseObjectLoop_comma_quote (fuel : Nat)
    (acc : List (List Nat × jsonElement)) (t : List Nat) :
    parseObjectLoop (fuel + 1) false acc (44 :: 34 :: t)
      = parseMember fuel acc (34 :: t) := by
  simp only [parseObjectLoop]
  rw [skipSpaces_not (by decide)]
  rfl

/-! ### The round-trip, by mutual recursion on the parser's fuel -/

mutual
theorem roundTripValue : ∀ (fuel : Nat) (v : jsonElement) (rest : List Nat),
    good v = true → numDelim rest = true → (serialize true v).length < fuel →
    parseValue fuel (serialize true v ++ rest) = .ok (v, rest)
  | 0, _, _, _, _, hf => absurd hf (by omega)
  | fuel + 1, .jnull, rest, _, _, _ => by
    show parseValue (fuel + 1) (110 :: 117 :: 108 :: 108 :: rest) = _
    simp [parseValue, skipSpaces, isSpace, isNumB, isNum]
  | fuel + 1, .jbool true, rest, _, _, _ => by
    show parseValue (fuel + 1) (116 :: 114 :: 117 :: 101 :: rest) = _
    simp [parseValue, skipSpaces, isSpace, isNumB, isNum]
  | fuel + 1, .jbool false, rest, _, _, _ => by
    show parseValue (fuel + 1) (102 :: 97 :: 108 :: 115 :: 101 :: rest) = _
    simp [parseValue, skipSpaces, isSpace, isNumB, isNum]
  | fuel + 1, .jdbl d, rest, hg, _, _ => nomatch hg
  | fuel + 1, .jint i, rest, _, hr, _ => by
    show parseValue (fuel + 1) (intDecimal i ++ rest) = _
    obtain ⟨c, t, hct, hsp, h93, h125⟩ := serialize_head true (.jint i)
    have hct' : intDecimal i = c :: t := hct
    have hcnum : isNum c = true := intDecimal_isNum i c (by rw [hct']; simp)
    have hc' : 48 ≤ c ∧ c ≤ 57 ∨ c = 45 := by
      by_cases hi : i < 0
      · have h45 : intDecimal i = 45 :: natDigits i.natAbs := by
          simp [intDecimal, hi]
        rw [h45] at hct'
        injection hct' with h1 _
        exact Or.inr h1.symm
      · have hnd : intDecimal i = natDigits i.natAbs := by
          simp [intDecimal, hi]
        rw [hnd] at hct'
        exact Or.inl (natDigits_digits i.natAbs c (by rw [hct']; simp))
    have hnb : isNumB c = true := by
      simp only [isNumB, isNum, decide_eq_true_eq] at hcnum ⊢
      tauto
    have h123 : c ≠ 123 := by rcases hc' with h | h <;> omega
    have h91 : c ≠ 91 := by rcases hc' with h | h <;> omega
    have h34 : c ≠ 34 := by rcases hc' with h | h <;> omega
    rw [hct', List.cons_append, parseValue_numpath fuel _ hsp h123 h91 h34 hnb,
      ← List.cons_append, ← hct', parseNumber_intDecimal i rest hr]
  | fuel + 1, .jstr s, rest, hg, _, _ => by
    have hshape : serialize true (.jstr s) ++ rest
        = 34 :: (strEscape s ++ 34 :: rest) := by
      show (34 :: strEscape s ++ [34]) ++ rest = _
      simp [List.append_assoc]
    have hall : ∀ b ∈ s, goodStrByte b = true := by
      simp only [good, List.all_eq_true] at hg
      exact hg
    rw [hshape, parseValue_quote, parseStringBody_strEscape s hall rest]
    rfl
  | fuel + 1, .jarr l, rest, hg, _, hf => by
    have hshape : serialize true (.jarr l) ++ rest
        = 91 :: (serializeElems true l ++ 93 :: rest) := by
      show (91 :: serializeElems true l ++ [93]) ++ rest = _
      simp [List.append_assoc]
    have hge : goodElems l = true := by simpa [good] using hg
    have hlen : (serializeElems true l).length + 1 < fuel := by
      have h2 : (serialize true (.jarr l)).length
          = (serializeElems true l).length + 2 := by
        show (91 :: serializeElems true l ++ [93]).length = _
        simp
      omega
    rw [hshape, parseValue_obrk, roundTripElemsFirst fuel l [] rest hge hlen]
    simp
  | fuel + 1, .jobj l, rest, hg, _, hf => by
    have hshape : serialize true (.jobj l) ++ rest
        = 123 :: (serializeMembers true l ++ 125 :: rest) := by
      show (123 :: serializeMembers true l ++ [125]) ++ rest = _
      simp [List.append_assoc]
    have hgm : goodMembers l = true := by
      simp only [good, Bool.and_eq_true] at hg
      exact hg.2
    have hsort : sortedKeys (([] : List (List Nat × jsonElement)) ++ l) = true := by
      simp only [List.nil_append]
      simp only [good, Bool.and_eq_true] at hg
      exact hg.1
    have hlen : (serializeMembers true l).length + 1 < fuel := by
      have h2 : (serialize true (.jobj l)).length
          = (serializeMembers true l).length + 2 := by
        show (123 :: serializeMembers true l ++ [125]).length = _
        simp
      omega
    rw [hshape, parseValue_obrace, roundTripMembersFirst fuel l [] rest hgm hsort hlen]
    simp
termination_by fuel => (fuel, 0)
theorem roundTripElemsFirst : ∀ (fuel : Nat) (l : List jsonElement)
    (acc : List jsonElement) (rest : List Nat), goodElems l = true →
    (serializeElems true l).length + 1 < fuel →
    parseArrayLoop fuel true acc (serializeElems true l ++ 93 :: rest)
      = .ok (.jarr (acc ++ l), rest)
  | 0, _, _, _, _, hf => absurd hf (by omega)
  | fuel + 1, [], acc, rest, _, _ => by
    show parseArrayLoop (fuel + 1) true acc (93 :: rest) = _
    simp [parseArrayLoop, skipSpaces, isSpace]
  | fuel + 1, x :: xs, acc, rest, hg, hf => by
    have hshape : serializeElems true (x :: xs) ++ 93 :: rest
        = serialize true x ++ (serializeElemsTail true xs ++ 93 :: rest) := by
      show (serialize true x ++ serializeElemsTail true xs) ++ 93 :: rest = _
      simp [List.append_assoc]
    obtain ⟨c, t, hct, hsp, h93, h125⟩ := serialize_head true x
    have hgx : good x = true := by
      simp only [goodElems, Bool.and_eq_true] at hg
      exact hg.1
    have hgxs : goodElems xs = true := by
      simp only [goodElems, Bool.and_eq_true] at hg
      exact hg.2
    have hlens : (serializeElems true (x :: xs)).length
        = (serialize true x).length + (serializeElemsTail true xs).length := by
      show (serialize true x ++ serializeElemsTail true xs).length = _
      simp
    have hpos := serialize_length_pos true x
    rw [hshape, hct, List.cons_append,
      parseArrayLoop_first fuel acc _ hsp h93, ← List.cons_append, ← hct,
      roundTripValue fuel x (serializeElemsTail true xs ++ 93 :: rest) hgx
        (numDelim_elemsTail true xs 93 (by decide) rest) (by omega)]
    show parseArrayLoop fuel false (acc ++ [x])
        (serializeElemsTail true xs ++ 93 :: rest) = _
    rw [roundTripElemsTail fuel xs (acc ++ [x]) rest hgxs (by omega)]
    simp [List.append_assoc]
termination_by fuel => (fuel, 0)
theorem roundTripElemsTail : ∀ (fuel : Nat) (l : List jsonElement)
    (acc : List jsonElement) (rest : List Nat), goodElems l = true →
    (serializeElemsTail true l).length + 1 < fuel →
    parseArrayLoop fuel false acc (serializeElemsTail true l ++ 93 :: rest)
      = .ok (.jarr (acc ++ l), rest)
  | 0, _, _, _, _, hf => absurd hf (by omega)
  | fuel + 1, [], acc, rest, _, _ => by
    show parseArrayLoop (fuel + 1) false acc (93 :: rest) = _
    simp [parseArrayLoop, skipSpaces, isSpace]
  | fuel + 1, x :: xs, acc, rest, hg, hf => by
    have hshape : serializeElemsTail true (x :: xs) ++ 93 :: rest
        = 44 :: (serialize true x ++ (serializeElemsTail true xs ++ 93 :: rest)) := by
      show (44 :: serialize true x ++ serializeElemsTail true xs) ++ 93 :: rest = _
      simp [List.append_assoc]
    have hgx : good x = true := by
      simp only [goodElems, Bool.and_eq_true] at hg
      exact hg.1
    have hgxs : goodElems xs = true := by
      simp only [goodElems, Bool.and_eq_true] at hg
      exact hg.2
    have hlens : (serializeElemsTail true (x :: xs)).length
        = (serialize true x).length + (serializeElemsTail true xs).length + 1 := by
      show (44 :: serialize true x ++ serializeElemsTail true xs).length = _
      simp
    have hpos := serialize_length_pos true x
    rw [hshape, parseArrayLoop_comma fuel acc _, skipSpaces_serialize,
      roundTripValue fuel x (serializeElemsTail true xs ++ 93 :: rest) hgx
        (numDelim_elemsTail true xs 93 (by decide) rest) (by omega)]
    show parseArrayLoop fuel false (acc ++ [x])
        (serializeElemsTail true xs ++ 93 :: rest) = _
    rw [roundTripElemsTail fuel xs (acc ++ [x]) rest hgxs (by omega)]
    simp
termination_by fuel => (fuel, 0)
theorem roundTripMember : ∀ (fuel : Nat) (k : List Nat) (v : jsonElement)
    (xs : List (List Nat × jsonElement)) (acc : List (List Nat × jsonElement))
    (rest : List Nat), (∀ b ∈ k, b ≠ 34) → good v = true →
    goodMembers xs = true → sortedKeys (acc ++ (k, v) :: xs) = true →
    (serialize true v).length < fuel →
    (serializeMembersTail true xs).length + 1 < fuel →
    parseMember fuel acc
        (34 :: (k ++ 34 :: 58 :: (serialize true v
          ++ (serializeMembersTail true xs ++ 125 :: rest))))
      = .ok (.jobj (acc ++ (k, v) :: xs), rest)
  | fuel, k, v, xs, acc, rest, hk, hgv, hgxs, hsort, hfv, hfxs => by
    have hname : parseName
        (34 :: (k ++ 34 :: 58 :: (serialize true v
          ++ (serializeMembersTail true xs ++ 125 :: rest))))
        = .ok (k, 58 :: (serialize true v
            ++ (serializeMembersTail true xs ++ 125 :: rest))) := by
      show parseQuotedName (k ++ 34 :: 58 :: (serialize true v
          ++ (serializeMembersTail true xs ++ 125 :: rest))) = _
      exact parseQuotedName_raw k hk _
    simp only [parseMember, hname]
    show (match parseValue fuel (skipSpaces (serialize true v
          ++ (serializeMembersTail true xs ++ 125 :: rest))) with
      | Except.error e => Except.error e
      | Except.ok (w, s5) => parseObjectLoop fuel false (objInsert acc k w) s5)
      = _
    rw [skipSpaces_serialize]
    rw [roundTripValue fuel v (serializeMembersTail true xs ++ 125 :: rest) hgv
      (numDelim_membersTail true xs 125 (by decide) rest) hfv]
    have hins : objInsert acc k v = acc ++ [(k, v)] :=
      objInsert_append acc (sortedKeys_mid acc hsort)
    have hsort' : sortedKeys ((acc ++ [(k, v)]) ++ xs) = true := by
      rw [List.append_assoc, List.singleton_append]
      exact hsort
    show parseObjectLoop fuel false (objInsert acc k v)
        (serializeMembersTail true xs ++ 125 :: rest) = _
    rw [hins, roundTripMembersTail fuel xs (acc ++ [(k, v)]) rest hgxs hsort' hfxs]
    rw [List.append_assoc, List.singleton_append]
termination_by fuel => (fuel, 1)
theorem roundTripMembersFirst : ∀ (fuel : Nat)
    (l : List (List Nat × jsonElement)) (acc : List (List Nat × jsonElement))
    (rest : List Nat), goodMembers l = true → sortedKeys (acc ++ l) = true →
    (serializeMembers true l).length + 1 < fuel →
    parseObjectLoop fuel true acc (serializeMembers true l ++ 125 :: rest)
      = .ok (.jobj (acc ++ l), rest)
  | 0, _, _, _, _, _, hf => absurd hf (by omega)
  | fuel + 1, [], acc, rest, _, _, _ => by
    show parseObjectLoop (fuel + 1) true acc (125 :: rest) = _
    simp [parseObjectLoop, skipSpaces, isSpace]
  | fuel + 1, (k, v) :: xs, acc, rest, hg, hsort, hf => by
    have hshape : serializeMembers true ((k, v) :: xs) ++ 125 :: rest
        = 34 :: (k ++ 34 :: 58 :: (serialize true v
            ++ (serializeMembersTail true xs ++ 125 :: rest))) := by
      show (serializeKey true k ++ 58 :: serialize true v
          ++ serializeMembersTail true xs) ++ 125 :: rest = _
      simp [serializeKey, List.append_assoc]
    have hgk : ∀ b ∈ k, b ≠ 34 := by
      simp only [goodMembers, Bool.and_eq_true, List.all_eq_true] at hg
      intro b hb
      have hkb := hg.1.1 b hb
      simp only [goodKeyByte, decide_eq_true_eq] at hkb
      exact hkb.2.1
    have hgv : good v = true := by
      simp only [goodMembers, Bool.and_eq_true] at hg
      exact hg.1.2
    have hgxs : goodMembers xs = true := by
      simp only [goodMembers, Bool.and_eq_true] at hg
      exact hg.2
    have hlens : (serializeMembers true ((k, v) :: xs)).length
        = k.length + 3 + (serialize true v).length
          + (serializeMembersTail true xs).length := by
      show (serializeKey true k ++ 58 :: serialize true v
          ++ serializeMembersTail true xs).length = _
      simp [serializeKey]
      omega
    rw [hshape, parseObjectLoop_first fuel acc _ (by decide) (by decide)]
    exact roundTripMember fuel k v xs acc rest hgk hgv hgxs hsort
      (by omega) (by omega)
termination_by fuel => (fuel, 0)
theorem roundTripMembersTail : ∀ (fuel : Nat)
    (l : List (List Nat × jsonElement)) (acc : List (List Nat × jsonElement))
    (rest : List Nat), goodMembers l = true → sortedKeys (acc ++ l) = true →
    (serializeMembersTail true l).length + 1 < fuel →
    parseObjectLoop fuel false acc (serializeMembersTail true l ++ 125 :: rest)
      = .ok (.jobj (acc ++ l), rest)
  | 0, _, _, _, _, _, hf => absurd hf (by omega)
  | fuel + 1, [], acc, rest, _, _, _ => by
    show parseObjectLoop (fuel + 1) false acc (125 :: rest) = _
    simp [parseObjectLoop, skipSpaces, isSpace]
  | fuel + 1, (k, v) :: xs, acc, rest, hg, hsort, hf => by
    have hshape : serializeMembersTail true ((k, v) :: xs) ++ 125 :: rest
        = 44 :: 34 :: (k ++ 34 :: 58 :: (serialize true v
            ++ (serializeMembersTail true xs ++ 125 :: rest))) := by
      show (44 :: serializeKey true k ++ 58 :: serialize true v
          ++ serializeMembersTail true xs) ++ 125 :: rest = _
      simp [serializeKey, List.append_assoc]
    have hgk : ∀ b ∈ k, b ≠ 34 := by
      simp only [goodMembers, Bool.and_eq_true, List.all_eq_true] at hg
      intro b hb
      have hkb := hg.1.1 b hb
      simp only [goodKeyByte, decide_eq_true_eq] at hkb
      exact hkb.2.1
    have hgv : good v = true := by
      simp only [goodMembers, Bool.and_eq_true] at hg
      exact hg.1.2
    have hgxs : goodMembers xs = true := by
      simp only [goodMembers, Bool.and_eq_true] at hg
      exact hg.2
    have hlens : (serializeMembersTail true ((k, v) :: xs)).length
        = k.length + 4 + (serialize true v).length
          + (serializeMembersTail true xs).length := by
      show (44 :: serializeKey true k ++ 58 :: serialize true v
          ++ serializeMembersTail true xs).length = _
      simp [serializeKey]
      omega
    rw [hshape, parseObjectLoop_comma_quote fuel acc _]
    exact roundTripMember fuel k v xs acc rest hgk hgv hgxs hsort
      (by omega) (by omega)
termination_by fuel => (fuel, 0)
end


/-! ## Claim C2: JSON round-trip -/

/-- The rational that the double literal `0.5` denotes exactly. -/
def dblHalf : ℚ := Rat.mk' 1 2

/-- **C2, claim as stated, refuted twice.**  First: the value
`{"a\"b": true}` — an object whose only key `a"b` consists solely of
printable ASCII bytes (and which contains no non-printable byte anywhere,
so neither stated concession applies) — does not round-trip: object keys
are emitted raw, so the serialized form is `{"a"b":true}`, and the parser
stops the quoted key at the inner quote and then fails to find the `:`.
Second: no double value round-trips at all: `{"x": 0.5}` serializes to
`{"x":0.500000}` (`std::to_string` always emits a `.` and six fractional
digits), the number scan stops at the `.` (`isNum` admits neither `.` nor
`e`), and the parse fails — likewise the bare `0.500000`, rejected by
`jsonParser`'s trailing-content check.  In both cases `parse(serialize(v))`
is an error, not `v`, and no stated concession applies. -/
theorem c2_json_roundtrip_counterexample :
    ((∀ b ∈ [97, 34, 98], 32 ≤ b ∧ b ≤ 126) ∧
     serialize true (.jobj [([97, 34, 98], .jbool true)])
       = [123, 34, 97, 34, 98, 34, 58, 116, 114, 117, 101, 125] ∧
     jsonParser (serialize true (.jobj [([97, 34, 98], .jbool true)]))
       = .error "missing name/value separator" ∧
     ∀ w : jsonElement,
       jsonParser (serialize true (.jobj [([97, 34, 98], .jbool true)]))
         ≠ .ok w) ∧
    (serialize true (.jobj [(bs "x", .jdbl (dblHalf))])
       = [123, 34, 120, 34, 58, 48, 46, 53, 48, 48, 48, 48, 48, 125] ∧
     jsonParser (serialize true (.jobj [(bs "x", .jdbl (dblHalf))]))
       = .error "missing comma" ∧
     jsonParser (serialize true (.jdbl (dblHalf)))
       = .error "invalid json" ∧
     ∀ w : jsonElement,
       jsonParser (serialize true (.jobj [(bs "x", .jdbl (dblHalf))]))
         ≠ .ok w) :=
  ⟨⟨by decide, rfl, rfl, fun w h => by
    rw [show jsonParser (serialize true (.jobj [([97, 34, 98], .jbool true)]))
        = .error "missing name/value separator" from rfl] at h
    exact absurd h (by simp)⟩,
   ⟨rfl, rfl, rfl, fun w h => by
    rw [show jsonParser (serialize true (.jobj [(bs "x", .jdbl (dblHalf))]))
        = .error "missing comma" from rfl] at h
    exact absurd h (by simp)⟩⟩

/-- **C2 (amended).**  `parse(serialize(v))` recovers `v` exactly for every
value in the `good` fragment: no doubles (no serialized double re-parses —
second counterexample above), string bytes drawn from
`{TAB, LF, CR} ∪ [0x20, 0x7F]` (other bytes are emitted as `%XX`
and read back literally — the permitted lossy concession), and object keys
sorted (they already are, coming from `std::map`), free of the quote byte
and of NUL.  The quote-free key and double-free conditions are what the
counterexamples above force beyond the claim's own wording. -/
theorem c2_json_roundtrip (v : jsonElement) (h : good v = true) :
    jsonParser (serialize true v) = .ok v := by
  have hp := roundTripValue ((serialize true v).length + 1) v [] h rfl (by omega)
  rw [List.append_nil] at hp
  simp only [jsonParser, hp]
  rfl

/-- **C2 witness.**  The amended round-trip evaluated at the concrete value
`{"a": true, "b": "x"}`. -/
theorem c2_json_roundtrip_witness :
    good (.jobj [([97], .jbool true), ([98], .jstr [120])]) = true ∧
    jsonParser (serialize true (.jobj [([97], .jbool true), ([98], .jstr [120])]))
      = .ok (.jobj [([97], .jbool true), ([98], .jstr [120])]) :=
  ⟨rfl, c2_json_roundtrip (.jobj [([97], .jbool true), ([98], .jstr [120])]) rfl⟩

/-! ## Claim C6: string escaping in the serializer -/

/-- An uppercase hexadecimal digit byte (`0`-`9`, `A`-`F`). -/
def isUpperHexDigit (d : Nat) : Bool := (48 ≤ d ∧ d ≤ 57) ∨ (65 ≤ d ∧ d ≤ 70)

/-- The value of an uppercase hexadecimal digit byte. -/
def hexDigitVal (d : Nat) : Nat := if d ≤ 57 then d - 48 else d - 55

/-- Checks that an emitted byte sequence is a percent sign followed by
exactly two uppercase hexadecimal digits whose value is `b`. -/
def percentCheck (b : Nat) : List Nat → Bool
  | [37, d1, d2] =>
    isUpperHexDigit d1 && isUpperHexDigit d2 &&
      decide (16 * hexDigitVal d1 + hexDigitVal d2 = b)
  | _ => false

theorem hexTable_digit : ∀ d : Nat, d < 16 →
    isUpperHexDigit (hexTable.getD d 0) = true ∧
    hexDigitVal (hexTable.getD d 0) = d := by
  decide

theorem serStrByte_percent {b : Nat} (hb : b < 256) (hr : b < 32 ∨ 127 < b)
    (h13 : b ≠ 13) (h10 : b ≠ 10) (h9 : b ≠ 9) :
    percentCheck b (serStrByte b) = true := by
  have h34 : ¬ b = 34 := by omega
  have h92 : ¬ b = 92 := by omega
  have hser : serStrByte b
      = [37, hexTable.getD (b / 16 % 16) 0, hexTable.getD (b % 16) 0] := by
    simp [serStrByte, h34, h92, h13, h10, h9, hr]
  have hd1 := hexTable_digit (b / 16 % 16) (Nat.mod_lt _ (by omega))
  have hd2 := hexTable_digit (b % 16) (Nat.mod_lt _ (by omega))
  rw [hser]
  simp only [percentCheck, hd1.1, hd2.1, hd1.2, hd2.2, Bool.and_true,
    Bool.true_and, decide_eq_true_eq]
  omega

theorem serStrByte_cases : ∀ b : Nat, b < 256 →
    (b = 34 → serStrByte b = [92, 34]) ∧
    (b = 92 → serStrByte b = [92, 92]) ∧
    (b = 13 → serStrByte b = [92, 114]) ∧
    (b = 10 → serStrByte b = [92, 110]) ∧
    (b = 9 → serStrByte b = [92, 116]) ∧
    ((b < 32 ∨ 127 < b) → b ≠ 13 → b ≠ 10 → b ≠ 9 →
      percentCheck b (serStrByte b) = true) ∧
    (32 ≤ b → b ≤ 127 → b ≠ 34 → b ≠ 92 → serStrByte b = [b]) := by
  intro b hb
  refine ⟨?_, ?_, ?_, ?_, ?_, ?_, ?_⟩
  · rintro rfl; rfl
  · rintro rfl; rfl
  · rintro rfl; rfl
  · rintro rfl; rfl
  · rintro rfl; rfl
  · exact fun hr h13 h10 h9 => serStrByte_percent hb hr h13 h10 h9
  · intro hge hle h34 h92
    have e13 : ¬ b = 13 := by omega
    have e10 : ¬ b = 10 := by omega
    have e9 : ¬ b = 9 := by omega
    have erange : ¬ (b < 32 ∨ 127 < b) := by omega
    simp [serStrByte, h34, h92, e13, e10, e9, erange]

/-- **C6.**  Byte-wise escaping in the string case of the serializer:
each byte of a string value is passed through `serStrByte`; the five bytes
`" \ CR LF TAB` get their backslash escapes, every other byte below `0x20`
or above `0x7F` becomes `%` followed by exactly two uppercase hexadecimal
digits carrying the byte value, and every remaining byte is emitted
literally. -/
theorem c6_string_escaping : ∀ (q : Bool) (s : List Nat) (b : Nat), b < 256 →
    (serialize q (.jstr s) = 34 :: strEscape s ++ [34]) ∧
    (strEscape (b :: s) = serStrByte b ++ strEscape s) ∧
    (b = 34 → serStrByte b = [92, 34]) ∧
    (b = 92 → serStrByte b = [92, 92]) ∧
    (b = 13 → serStrByte b = [92, 114]) ∧
    (b = 10 → serStrByte b = [92, 110]) ∧
    (b = 9 → serStrByte b = [92, 116]) ∧
    ((b < 32 ∨ 127 < b) → b ≠ 13 → b ≠ 10 → b ≠ 9 →
      percentCheck b (serStrByte b) = true) ∧
    (32 ≤ b → b ≤ 127 → b ≠ 34 → b ≠ 92 → serStrByte b = [b]) :=
  fun _ s b hb =>
    have h := serStrByte_cases b hb
    ⟨rfl, rfl, h.1, h.2.1, h.2.2.1, h.2.2.2.1, h.2.2.2.2.1,
      h.2.2.2.2.2.1, h.2.2.2.2.2.2⟩

/-- **C6 witness.**  The escaping facts evaluated at byte `0xC8` of the
string `[0xC8, 0x41]`: it is emitted as `%C8` and `A` is emitted literally. -/
theorem c6_string_escaping_witness :
    (200 : Nat) < 256 ∧
    serialize true (.jstr [200, 65]) = 34 :: strEscape [200, 65] ++ [34] ∧
    percentCheck 200 (serStrByte 200) = true ∧
    serStrByte 200 = [37, 67, 56] ∧
    serStrByte 65 = [65] :=
  ⟨by decide,
    (c6_string_escaping true [200, 65] 200 (by decide)).1,
    (c6_string_escaping true [200, 65] 200 (by decide)).2.2.2.2.2.2.2.1
      (by decide) (by decide) (by decide) (by decide),
    by decide, by decide⟩

/-! ## The parameter-binding dispatcher (`nativeDispatch`, part_001
lines 81-210) and `dabClient::dispatch` (lines 555-585)

Handlers are modelled as functions from the argument vector to
`Except cppExc jsonElement`; the `types<Args...>` metaprogram is modelled by
an explicit list of declared parameter types.  A registry stands for the
`dispatchMap` (topic, dispatcher) association. -/

/-- The declared C++ type of one handler parameter (`std::string const &`,
`int64_t`, `bool`, `jsonElement const &`). -/
inductive paramType where
  | pstring : paramType
  | pint : paramType
  | pbool : paramType
  | pjson : paramType
deriving Repr, DecidableEq

/-- `Head{}` — the default-constructed value of a declared parameter type
(`nativeDispatch::callOptional`, line 188).  A default-constructed
`jsonElement` holds `std::monostate`, i.e. JSON null. -/
def defaultOf : paramType → jsonElement
  | .pstring => .jstr []
  | .pint => .jint 0
  | .pbool => .jbool false
  | .pjson => .jnull

/-- The conversion of an extracted `jsonElement` to the declared parameter
type at the final handler call: the const accessors of part_000 lines
757-791 (each throws its own `char const *` on a variant mismatch;
`jsonElement` parameters are passed through). -/
def convertParam : paramType → jsonElement → Except cppExc jsonElement
  | .pstring, .jstr s => .ok (.jstr s)
  | .pstring, _ => .error (.cstr "invalid json string value")
  | .pint, .jint i => .ok (.jint i)
  | .pint, _ => .error (.cstr "invalid json integer value")
  | .pbool, .jbool b => .ok (.jbool b)
  | .pbool, _ => .error (.cstr "invalid json integer value")
  | .pjson, v => .ok v

/-- `nativeDispatch::callFixed` (lines 124-151): for each fixed name look in
`elem["payload"]`, then in `elem`, then treat `"*"` as the whole envelope,
else fail 400.  Note `elem["payload"]` is evaluated (and throws
`"element not found"`) before any `has` test, on every iteration. -/
def callFixed (elem : jsonElement) : List (List Nat) →
    Except cppExc (List jsonElement)
  | [] => .ok []
  | name :: names =>
    match elem.getKey (bs "payload") with
    | .error e => .error e
    | .ok payload =>
      match
        (if payload.has name then payload.getKey name
         else if elem.has name then elem.getKey name
         else if name = bs "*" then .ok elem
         else .error (.dab 400 (bs "missing parameter \"" ++ name ++ bs "\"")) :
          Except cppExc jsonElement)
      with
      | .error e => .error e
      | .ok arg =>
        match callFixed elem names with
        | .error e => .error e
        | .ok args => .ok (arg :: args)

/-- `nativeDispatch::callOptional` (lines 173-190): like `callFixed` but an
absent name binds `Head{}`, the default of the declared type. -/
def callOptional (elem : jsonElement) : List (List Nat × paramType) →
    Except cppExc (List jsonElement)
  | [] => .ok []
  | (name, ty) :: rest =>
    match elem.getKey (bs "payload") with
    | .error e => .error e
    | .ok payload =>
      match
        (if payload.has name then payload.getKey name
         else if elem.has name then elem.getKey name
         else .ok (defaultOf ty) : Except cppExc jsonElement)
      with
      | .error e => .error e
      | .ok arg =>
        match callOptional elem rest with
        | .error e => .error e
        | .ok args => .ok (arg :: args)

/-- The per-argument conversions performed when the collected `Vs...` pack
is bound to the member function's parameters (the base case of
`callOptional`, line 207).  Arity is equal by construction; the mismatch
branch is unreachable. -/
def convertAll : List paramType → List jsonElement →
    Except cppExc (List jsonElement)
  | [], [] => .ok []
  | ty :: tys, a :: as =>
    match convertParam ty a with
    | .error e => .error e
    | .ok c =>
      match convertAll tys as with
      | .error e => .error e
      | .ok cs => .ok (c :: cs)
  | _, _ => .error (.cstr "arity mismatch")

/-- One operation descriptor: the fixed and optional parameter names with
their declared types (the XMACRO rows of part_001 lines 251-276). -/
structure methodDesc where
  fixed : List (List Nat × paramType)
  optional : List (List Nat × paramType)

/-- `nativeDispatch::operator()`: extract all fixed arguments, then all
optional ones, convert each to its declared type, and invoke the handler. -/
def nativeDispatchCall (d : methodDesc)
    (impl : List jsonElement → Except cppExc jsonElement)
    (elem : jsonElement) : Except cppExc jsonElement :=
  match callFixed elem (d.fixed.map Prod.fst) with
  | .error e => .error e
  | .ok rawF =>
    match callOptional elem d.optional with
    | .error e => .error e
    | .ok rawO =>
      match convertAll (d.fixed.map Prod.snd ++ d.optional.map Prod.snd)
          (rawF ++ rawO) with
      | .error e => .error e
      | .ok args => impl args

/-- `std::map::find` over a (topic, handler) registry. -/
def lookupTopic {α : Type} : List (List Nat × α) → List Nat → Option α
  | [], _ => none
  | (k, v) :: t, topic => if k = topic then some v else lookupTopic t topic

/-- The error response the catch clauses of `dabClient::dispatch` build.
`rsp = { { "status", code, "error", text } }` passes a FOUR-element
initializer list to the `jsonElement` initializer-list constructor, whose
documented rule (part_000 lines 86-91) turns a list of more than two
non-object values into an ARRAY; the outer single-element list then wraps
that array in another array.  The response is therefore
`[["status", code, "error", text]]`, not the object
`{"status": code, "error": text}`. -/
def errorResponse (code : Int) (msg : List Nat) : jsonElement :=
  .jarr [.jarr [.jstr (bs "status"), .jint code, .jstr (bs "error"),
    .jstr msg]]

/-- `dabClient::dispatch` (lines 555-585): read `elem["topic"]` as a
string, look the topic up in the dispatch map, run the dispatcher if found
(`rsp` stays default-null otherwise), inject `status: 200` if the response
has none, and map exceptions to `errorResponse` (a `dabException` carries
its own code and text; anything else — the thrown `char const *` literals —
is caught by `catch (...)` as 400 "unable to parse request"; the two
`std::pair` catch clauses match nothing the sources throw). -/
def tryDispatch
    (registry : List (List Nat × (jsonElement → Except cppExc jsonElement)))
    (elem : jsonElement) : Except cppExc jsonElement :=
  match elem.getKey (bs "topic") with
  | .error e => .error e
  | .ok topicV =>
    match topicV.asString with
    | .error e => .error e
    | .ok topic =>
      match
        (match lookupTopic registry topic with
         | some h => h elem
         | none => .ok .jnull : Except cppExc jsonElement)
      with
      | .error e => .error e
      | .ok rsp =>
        .ok (if rsp.has (bs "status") then rsp
          else rsp.setKey (bs "status") (.jint 200))

/-- The catch clauses wrapped around `tryDispatch`. -/
def dabClientDispatch
    (registry : List (List Nat × (jsonElement → Except cppExc jsonElement)))
    (elem : jsonElement) : jsonElement :=
  match tryDispatch registry elem with
  | .ok r => r
  | .error (.dab code msg) => errorResponse code msg
  | .error (.cstr _) => errorResponse 400 (bs "unable to parse request")

/-- A fixed name that does not make `callFixed` fail: present in the
payload, present at the envelope top level, or the `"*"` sentinel. -/
def presentOrStar (elem payload : jsonElement) (n : List Nat) : Bool :=
  payload.has n || elem.has n || n = bs "*"

theorem getKey_ok_of_has {v : jsonElement} {k : List Nat}
    (h : v.has k = true) : ∃ x, v.getKey k = .ok x := by
  unfold jsonElement.has at h
  unfold jsonElement.getKey
  match hl : v.lookupKey k with
  | none => rw [hl] at h; exact absurd h (by simp)
  | some .jnull => rw [hl] at h; exact absurd h (by simp)
  | some (.jbool b) => exact ⟨_, rfl⟩
  | some (.jint i) => exact ⟨_, rfl⟩
  | some (.jdbl d) => exact ⟨_, rfl⟩
  | some (.jstr s) => exact ⟨_, rfl⟩
  | some (.jarr l) => exact ⟨_, rfl⟩
  | some (.jobj l) => exact ⟨_, rfl⟩

/-- `callFixed` fails with the missing-parameter `dabException` naming the
first fixed name that is in neither lookup place and is not `"*"`, provided
every earlier fixed name is present (or is `"*"`). -/
theorem callFixed_first_missing :
    ∀ (pre : List (List Nat)) (elem payload : jsonElement)
      (name : List Nat) (post : List (List Nat)),
      elem.getKey (bs "payload") = .ok payload →
      (∀ n ∈ pre, presentOrStar elem payload n = true) →
      payload.has name = false → elem.has name = false → name ≠ bs "*" →
      callFixed elem (pre ++ name :: post)
        = .error (.dab 400 (bs "missing parameter \"" ++ name ++ bs "\""))
  | [], elem, payload, name, post, hp, _, hnp, hne, hstar => by
    simp only [List.nil_append, callFixed, hp, hnp, hne, Bool.false_eq_true,
      if_false, if_neg hstar]
  | n :: pre, elem, payload, name, post, hp, hpres, hnp, hne, hstar => by
    have hn := hpres n (by simp)
    have ih := callFixed_first_missing pre elem payload name post hp
      (fun m hm => hpres m (by simp [hm])) hnp hne hstar
    simp only [presentOrStar, Bool.or_eq_true, decide_eq_true_eq] at hn
    simp only [List.cons_append, callFixed, hp]
    rcases hn with (hn1 | hn2) | hn3
    · obtain ⟨x, hx⟩ := getKey_ok_of_has hn1
      simp [hn1, hx, ih]
    · by_cases hn1 : payload.has n = true
      · obtain ⟨x, hx⟩ := getKey_ok_of_has hn1
        simp [hn1, hx, ih]
      · obtain ⟨x, hx⟩ := getKey_ok_of_has hn2
        simp [hn1, hn2, hx, ih]
    · by_cases hn1 : payload.has n = true
      · obtain ⟨x, hx⟩ := getKey_ok_of_has hn1
        simp [hn1, hx, ih]
      · by_cases hn2 : elem.has n = true
        · obtain ⟨x, hx⟩ := getKey_ok_of_has hn2
          simp [hn1, hn2, hx, ih]
        · subst hn3
          simp [hn1, hn2, ih]

/-- An optional parameter absent from both lookup places binds the default
of its declared type, whatever sits at the other positions. -/
theorem callOptional_absent_default :
    ∀ (opts : List (List Nat × paramType)) (elem payload : jsonElement)
      (args : List jsonElement) (i : Nat) (name : List Nat) (ty : paramType),
      elem.getKey (bs "payload") = .ok payload →
      callOptional elem opts = .ok args →
      opts[i]? = some (name, ty) →
      payload.has name = false → elem.has name = false →
      args[i]? = some (defaultOf ty)
  | [], _, _, _, i, _, _, _, _, hi, _, _ => by simp at hi
  | (n', ty') :: rest, elem, payload, args, i, name, ty, hp, hok, hi, hnp, hne => by
    simp only [callOptional, hp] at hok
    cases i with
    | zero =>
      simp only [List.getElem?_cons_zero, Option.some.injEq, Prod.mk.injEq] at hi
      obtain ⟨rfl, rfl⟩ := hi
      rw [if_neg (by simp [hnp]), if_neg (by simp [hne])] at hok
      cases hrest : callOptional elem rest with
      | error e => rw [hrest] at hok; exact absurd hok (by simp)
      | ok args' =>
        rw [hrest] at hok
        simp only [Except.ok.injEq] at hok
        subst hok
        simp
    | succ i' =>
      split at hok
      · exact absurd hok (by simp)
      · rename_i arg _
        cases hrest : callOptional elem rest with
        | error e => rw [hrest] at hok; exact absurd hok (by simp)
        | ok args' =>
          rw [hrest] at hok
          simp only [Except.ok.injEq] at hok
          subst hok
          simp only [List.getElem?_cons_succ] at hi ⊢
          exact callOptional_absent_default rest elem payload args' i' name ty
            hp hrest hi hnp hne

/-- The descriptor of `dab/<deviceId>/applications/launch`
(part_001 line 254): fixed `{"appId"}` of type `std::string const &`,
optional `{"parameters"}` of type `jsonElement const &`. -/
def launchDesc : methodDesc :=
  ⟨[(bs "appId", .pstring)], [(bs "parameters", .pjson)]⟩

/-- The launch topic for a device with id `device1`. -/
def launchTopic : List Nat := bs "dab/device1/applications/launch"

/-- The envelope of end-to-end scenario 3 of the specification:
`{"topic": "dab/device1/applications/launch", "payload": {}}` (keys in the
sorted order `std::map` stores them). -/
def envLaunchEmptyPayload : jsonElement :=
  .jobj [(bs "payload", .jobj []), (bs "topic", .jstr launchTopic)]

/-! ## Claim C1: missing fixed parameter -/

/-- **C1** (code bug in the response shaping; see RESULTS).  Dispatching an
operation whose first missing fixed parameter (in declaration order) is
`name` — every earlier fixed name being present or `"*"` — raises
`dabException{400, missing parameter "name"}` from `callFixed`, so the
handler is never invoked; but `dabClient::dispatch`'s catch clause shapes
the response through a four-element initializer list, producing the nested
ARRAY `[["status", 400, "error", "missing parameter \"appId\""]]`
(evaluated here on the specification's own scenario-3 input, for every
handler `impl`), not the object `{"status": 400, "error": …}` the claim
states. -/
theorem c1_missing_parameter :
    (∀ impl : List jsonElement → Except cppExc jsonElement,
      dabClientDispatch [(launchTopic, nativeDispatchCall launchDesc impl)]
          envLaunchEmptyPayload
        = .jarr [.jarr [.jstr (bs "status"), .jint 400, .jstr (bs "error"),
            .jstr (bs "missing parameter \"appId\"")]]) ∧
    (∀ (pre : List (List Nat)) (elem payload : jsonElement)
       (name : List Nat) (post : List (List Nat)),
      elem.getKey (bs "payload") = .ok payload →
      (∀ n ∈ pre, presentOrStar elem payload n = true) →
      payload.has name = false → elem.has name = false → name ≠ bs "*" →
      callFixed elem (pre ++ name :: post)
        = .error (.dab 400 (bs "missing parameter \"" ++ name ++ bs "\""))) :=
  ⟨fun _ => rfl, callFixed_first_missing⟩

/-- **C1 witness.**  The missing-parameter error evaluated with the first
fixed name (`appId`) present and the second (`contentId`) absent. -/
theorem c1_missing_parameter_witness :
    callFixed
        (.jobj [(bs "payload", .jobj [(bs "appId", .jstr (bs "x"))])])
        ([bs "appId"] ++ bs "contentId" :: [])
      = .error (.dab 400
          (bs "missing parameter \"" ++ bs "contentId" ++ bs "\"")) :=
  c1_missing_parameter.2 [bs "appId"]
    (.jobj [(bs "payload", .jobj [(bs "appId", .jstr (bs "x"))])])
    (.jobj [(bs "appId", .jstr (bs "x"))]) (bs "contentId") []
    rfl (by decide) rfl rfl (by decide)

/-! ## Claim C3: defaults for absent optional parameters -/

/-- The envelope `{"topic": …launch, "payload": {"appId": "netflix"}}` of
scenario 4: `appId` present, optional `parameters` absent. -/
def envLaunchNetflix : jsonElement :=
  .jobj [(bs "payload", .jobj [(bs "appId", .jstr (bs "netflix"))]),
    (bs "topic", .jstr launchTopic)]

/-- **C3, claim as stated, refuted.**  Dispatching `applications/launch`
with optional `parameters` absent hands the handler JSON null — the
default-constructed `jsonElement`, `std::monostate` — at that position, not
an empty JSON object: an echoing handler returns its argument vector, and
the second argument comes back `null` (`jnull ≠ jobj []`). -/
theorem c3_optional_default_counterexample :
    dabClientDispatch
        [(launchTopic, nativeDispatchCall launchDesc
          (fun args => .ok (.jobj [(bs "args", .jarr args)])))]
        envLaunchNetflix
      = .jobj [(bs "args", .jarr [.jstr (bs "netflix"), .jnull]),
          (bs "status", .jint 200)] ∧
    (jsonElement.jnull ≠ .jobj []) :=
  ⟨rfl, by simp⟩

/-- **C3 (amended).**  An optional parameter absent from both `E.payload`
and the top level of `E` binds the default value of its declared C++ type:
the empty string for `std::string`, `0` for `int64_t`, `false` for `bool`,
and JSON NULL (the default-constructed, `monostate` element) — not an empty
object — for `jsonElement`; the declared-type conversion at the handler
call passes each such default through unchanged. -/
theorem c3_optional_defaults :
    (∀ (opts : List (List Nat × paramType)) (elem payload : jsonElement)
       (args : List jsonElement) (i : Nat) (name : List Nat) (ty : paramType),
      elem.getKey (bs "payload") = .ok payload →
      callOptional elem opts = .ok args →
      opts[i]? = some (name, ty) →
      payload.has name = false → elem.has name = false →
      args[i]? = some (defaultOf ty)) ∧
    defaultOf .pstring = .jstr [] ∧ defaultOf .pint = .jint 0 ∧
    defaultOf .pbool = .jbool false ∧ defaultOf .pjson = .jnull ∧
    ∀ ty, convertParam ty (defaultOf ty) = .ok (defaultOf ty) :=
  ⟨callOptional_absent_default, rfl, rfl, rfl, rfl,
    fun ty => by cases ty <;> rfl⟩

/-- **C3 witness.**  The default binding evaluated on the scenario-4
envelope: absent `parameters` (declared `jsonElement`) binds JSON null. -/
theorem c3_optional_defaults_witness :
    callOptional envLaunchNetflix [(bs "parameters", paramType.pjson)]
        = .ok [.jnull] ∧
    ([jsonElement.jnull])[0]? = some (defaultOf .pjson) :=
  ⟨rfl, c3_optional_defaults.1 [(bs "parameters", .pjson)] envLaunchNetflix
    (.jobj [(bs "appId", .jstr (bs "netflix"))]) [.jnull] 0
    (bs "parameters") .pjson rfl rfl rfl rfl rfl⟩

/-! ## Claim C8: unknown operation yields a bare 200 -/

/-- **C8.**  For every envelope whose `topic` is a string that is not a key
of the dispatch registry, `dabClient::dispatch` invokes no handler and
returns exactly `{"status": 200}`: the default-constructed response is
null, the lookup fails silently, and the 200 default is injected. -/
theorem c8_unknown_operation_200 :
    ∀ (registry : List (List Nat × (jsonElement → Except cppExc jsonElement)))
      (elem : jsonElement) (t : List Nat),
      elem.getKey (bs "topic") = .ok (.jstr t) →
      lookupTopic registry t = none →
      dabClientDispatch registry elem = .jobj [(bs "status", .jint 200)] := by
  intro registry elem t ht hlook
  simp only [dabClientDispatch, tryDispatch, ht, jsonElement.asString, hlook]
  rfl

/-- **C8 witness.**  An unknown operation on an empty registry. -/
theorem c8_unknown_operation_200_witness :
    dabClientDispatch []
        (.jobj [(bs "topic", .jstr (bs "dab/device1/no-such-op"))])
      = .jobj [(bs "status", .jint 200)] :=
  c8_unknown_operation_200 []
    (.jobj [(bs "topic", .jstr (bs "dab/device1/no-such-op"))])
    (bs "dab/device1/no-such-op") rfl rfl

/-! ## The telemetry scheduler (`dabClient`, part_001 lines 280-417)

`telemetryScheduler` models the `std::map<time_point, tuple<id, topic,
executor>>`: an association list strictly ordered by key with unique keys.
Time points are `Nat`.  A producer is modelled by the JSON value it
returns (`payload`); the executor's mutable interval lives in the entry. -/

/-- One scheduled entry: the tuple `(subjectId, publishTopic, executor)`
with the executor's interval and (pure) produced payload. -/
structure telemetryEntry where
  subjectId : List Nat
  publishTopic : List Nat
  interval : Nat
  payload : jsonElement
deriving Repr

/-- The scheduler map: keyed by `nextFireAt`, ordered, unique keys. -/
abbrev telemetryScheduler := List (Nat × telemetryEntry)

/-- `std::map::insert` (also of a node handle): insert at the ordered
position; when the key already exists the insertion FAILS and the element
is dropped. -/
def schedulerInsert : telemetryScheduler → Nat → telemetryEntry →
    telemetryScheduler
  | [], k, e => [(k, e)]
  | (k', e') :: t, k, e =>
    if k < k' then (k, e) :: (k', e') :: t
    else if k = k' then (k', e') :: t
    else (k', e') :: schedulerInsert t k e

/-- The scan of `addTelemetry` (lines 349-357): does any entry carry this
subject id? -/
def containsId : telemetryScheduler → List Nat → Bool
  | [], _ => false
  | (_, e) :: t, id => e.subjectId = id || containsId t id

/-- The update path of `addTelemetry`: `setInterval` on the first entry (in
key order) with this subject id; key, topic and producer are untouched. -/
def updateFirstInterval : telemetryScheduler → List Nat → Nat →
    telemetryScheduler
  | [], _, _ => []
  | (k, e) :: t, id, interval =>
    if e.subjectId = id then (k, { e with interval := interval }) :: t
    else (k, e) :: updateFirstInterval t id interval

/-- `dabClient::addTelemetry` (lines 343-361): update the interval in place
when the subject id already exists (next fire time unchanged), else insert
a fresh entry scheduled for `now`. -/
def addTelemetry (s : telemetryScheduler) (interval : Nat) (id topic : List Nat)
    (payload : jsonElement) (now : Nat) : telemetryScheduler :=
  if containsId s id then updateFirstInterval s id interval
  else schedulerInsert s now ⟨id, topic, interval, payload⟩

/-- `dabClient::deleteTelemetry` (lines 364-378): erase the first entry (in
key order) with this subject id, if any. -/
def deleteTelemetry : telemetryScheduler → List Nat → telemetryScheduler
  | [], _ => []
  | (k, e) :: t, id => if e.subjectId = id then t else (k, e) :: deleteTelemetry t id

/-- One body of the `telemetryTask` worker loop after the wait (lines
400-415): when the queue is non-empty and the head key is STRICTLY before
`now` (the clock read in the comparison), call the producer, publish
`{"payload": …, "topic": …}` (one merged object; `std::map` stores the two
keys sorted), and reinsert the extracted node with key
`now2 + interval`, where `now2` is the clock read inside
`getNextScheduledTime` after the producer ran.  Returns the new scheduler
and the published messages of this pass. -/
def telemetryTaskStep (s : telemetryScheduler) (now now2 : Nat) :
    telemetryScheduler × List jsonElement :=
  match s with
  | [] => (s, [])
  | (k, e) :: rest =>
    if k < now then
      (schedulerInsert rest (now2 + e.interval) e,
        [.jobj [(bs "payload", e.payload), (bs "topic", .jstr e.publishTopic)]])
    else ((k, e) :: rest, [])

/-- The subject ids currently scheduled, in key order. -/
def schedulerIds (s : telemetryScheduler) : List (List Nat) :=
  s.map (fun p => p.2.subjectId)

/-- The entries of one subject id, in key order. -/
def entriesFor (s : telemetryScheduler) (id : List Nat) : telemetryScheduler :=
  s.filter (fun p => p.2.subjectId = id)

/-- A call against the scheduler: the two mutators reachable from request
handlers (`device-telemetry/…`, `app-telemetry/…`). -/
inductive telemetryOp where
  | add (interval : Nat) (id topic : List Nat) (payload : jsonElement)
      (now : Nat) : telemetryOp
  | del (id : List Nat) : telemetryOp

/-- Apply one scheduler call. -/
def applyTelemetryOp (s : telemetryScheduler) : telemetryOp → telemetryScheduler
  | .add interval id topic payload now => addTelemetry s interval id topic payload now
  | .del id => deleteTelemetry s id

/-- Apply a sequence of scheduler calls. -/
def applyTelemetryOps (s : telemetryScheduler) (ops : List telemetryOp) :
    telemetryScheduler :=
  ops.foldl applyTelemetryOp s

theorem schedulerIds_update (s : telemetryScheduler) (id : List Nat) (i : Nat) :
    schedulerIds (updateFirstInterval s id i) = schedulerIds s := by
  induction s with
  | nil => rfl
  | cons p t ih =>
    obtain ⟨k, e⟩ := p
    simp only [updateFirstInterval]
    split
    · rfl
    · simp only [schedulerIds, List.map_cons] at ih ⊢
      rw [ih]

theorem mem_schedulerIds_insert {a : List Nat} :
    ∀ (s : telemetryScheduler) (k : Nat) (e : telemetryEntry),
      a ∈ schedulerIds (schedulerInsert s k e) →
      a = e.subjectId ∨ a ∈ schedulerIds s
  | [], k, e, h => by
    simp only [schedulerInsert, schedulerIds, List.map_cons, List.map_nil,
      List.mem_singleton] at h
    exact Or.inl h
  | (k', e') :: t, k, e, h => by
    simp only [schedulerInsert] at h
    split at h
    · simp only [schedulerIds, List.map_cons, List.mem_cons] at h ⊢
      tauto
    · split at h
      · exact Or.inr h
      · simp only [schedulerIds, List.map_cons, List.mem_cons] at h ⊢
        rcases h with h | h
        · exact Or.inr (Or.inl h)
        · rcases mem_schedulerIds_insert t k e h with h' | h'
          · exact Or.inl h'
          · exact Or.inr (Or.inr h')

theorem containsId_iff_mem (s : telemetryScheduler) (id : List Nat) :
    containsId s id = true ↔ id ∈ schedulerIds s := by
  induction s with
  | nil => simp [containsId, schedulerIds]
  | cons p t ih =>
    obtain ⟨k, e⟩ := p
    simp only [containsId, schedulerIds, List.map_cons, List.mem_cons,
      Bool.or_eq_true, decide_eq_true_eq]
    rw [ih]
    constructor
    · rintro (h | h)
      · exact Or.inl h.symm
      · exact Or.inr h
    · rintro (h | h)
      · exact Or.inl h.symm
      · exact Or.inr h

theorem nodup_insert {s : telemetryScheduler} {k : Nat} {e : telemetryEntry}
    (hs : (schedulerIds s).Nodup) (hid : e.subjectId ∉ schedulerIds s) :
    (schedulerIds (schedulerInsert s k e)).Nodup := by
  induction s with
  | nil => simp [schedulerInsert, schedulerIds]
  | cons p t ih =>
    obtain ⟨k', e'⟩ := p
    simp only [schedulerIds, List.map_cons, List.nodup_cons] at hs
    simp only [schedulerIds, List.map_cons, List.mem_cons, not_or] at hid
    simp only [schedulerInsert]
    split
    · simp only [schedulerIds, List.map_cons, List.nodup_cons, List.mem_cons,
        not_or]
      exact ⟨⟨fun h => hid.1 h, hid.2⟩, hs.1, hs.2⟩
    · split
      · simp only [schedulerIds, List.map_cons, List.nodup_cons]
        exact ⟨hs.1, hs.2⟩
      · simp only [schedulerIds, List.map_cons, List.nodup_cons]
        refine ⟨?_, ih hs.2 hid.2⟩
        intro hmem
        rcases mem_schedulerIds_insert t k e hmem with h' | h'
        · exact hid.1 h'.symm
        · exact hs.1 h'

theorem nodup_delete {id : List Nat} :
    ∀ {s : telemetryScheduler}, (schedulerIds s).Nodup →
      (schedulerIds (deleteTelemetry s id)).Nodup := by
  intro s
  induction s with
  | nil => intro h; exact h
  | cons p t ih =>
    obtain ⟨k, e⟩ := p
    intro h
    simp only [schedulerIds, List.map_cons, List.nodup_cons] at h
    simp only [deleteTelemetry]
    split
    · exact h.2
    · simp only [schedulerIds, List.map_cons, List.nodup_cons]
      refine ⟨?_, ih h.2⟩
      intro hmem
      apply h.1
      -- deletion only removes entries, so the surviving id was already there
      have : schedulerIds (deleteTelemetry t id) ⊆ schedulerIds t := by
        clear hmem h ih
        induction t with
        | nil => simp [deleteTelemetry]
        | cons q u ihh =>
          obtain ⟨k', e'⟩ := q
          simp only [deleteTelemetry]
          split
          · intro a ha
            simp only [schedulerIds, List.map_cons, List.mem_cons]
            exact Or.inr ha
          · intro a ha
            simp only [schedulerIds, List.map_cons, List.mem_cons] at ha ⊢
            rcases ha with ha | ha
            · exact Or.inl ha
            · exact Or.inr (ihh ha)
      exact this hmem

theorem nodup_step (s : telemetryScheduler) (op : telemetryOp)
    (hs : (schedulerIds s).Nodup) :
    (schedulerIds (applyTelemetryOp s op)).Nodup := by
  cases op with
  | add interval id topic payload now =>
    simp only [applyTelemetryOp, addTelemetry]
    split
    · rw [schedulerIds_update]
      exact hs
    · rename_i hc
      apply nodup_insert hs
      intro hmem
      rw [Bool.not_eq_true] at hc
      rw [← containsId_iff_mem] at hmem
      simp [hc] at hmem
  | del id => exact nodup_delete hs

theorem entriesFor_nil_of_not_contains {id : List Nat} :
    ∀ {s : telemetryScheduler}, containsId s id = false →
      entriesFor s id = [] := by
  intro s
  induction s with
  | nil => intro _; rfl
  | cons p t ih =>
    obtain ⟨k, e⟩ := p
    intro h
    simp only [containsId, Bool.or_eq_false_iff,
      decide_eq_false_iff_not] at h
    simp only [entriesFor, List.filter_cons]
    have h1 : (decide (e.subjectId = id)) = false := by simp [h.1]
    simp only [h1, Bool.false_eq_true, if_false]
    exact ih h.2

theorem entriesFor_insert_fresh {s : telemetryScheduler} {id : List Nat}
    (hnone : containsId s id = false) :
    ∀ (k : Nat) (e : telemetryEntry), e.subjectId = id →
      k ∉ s.map Prod.fst →
      entriesFor (schedulerInsert s k e) id = [(k, e)] := by
  induction s with
  | nil =>
    intro k e he _
    simp [schedulerInsert, entriesFor, he]
  | cons p t ih =>
    obtain ⟨k', e'⟩ := p
    intro k e he hk
    have hnone' : (¬ e'.subjectId = id) ∧ containsId t id = false := by
      simpa [containsId, Bool.or_eq_false_iff] using hnone
    simp only [List.map_cons, List.mem_cons, not_or] at hk
    simp only [schedulerInsert]
    split
    · simp only [entriesFor, List.filter_cons, he]
      have h1 : (decide (e'.subjectId = id)) = false := by simp [hnone'.1]
      have h2 := @entriesFor_nil_of_not_contains id t hnone'.2
      simp only [entriesFor] at h2
      simp [h1, h2]
    · split
      · rename_i hlt heq
        exact absurd heq hk.1
      · simp only [entriesFor, List.filter_cons]
        have h1 : (decide (e'.subjectId = id)) = false := by simp [hnone'.1]
        have := ih hnone'.2 k e he hk.2
        simp only [entriesFor] at this
        simp [h1, this]

theorem entriesFor_update {id : List Nat} {interval : Nat} :
    ∀ {s : telemetryScheduler} {k : Nat} {e : telemetryEntry},
      entriesFor s id = [(k, e)] →
      entriesFor (updateFirstInterval s id interval) id
        = [(k, { e with interval := interval })] := by
  intro s
  induction s with
  | nil => intro k e h; simp [entriesFor] at h
  | cons p t ih =>
    obtain ⟨k', e'⟩ := p
    intro k e h
    simp only [entriesFor, List.filter_cons] at h
    by_cases hmatch : e'.subjectId = id
    · have h1 : (decide (e'.subjectId = id)) = true := by simp [hmatch]
      simp only [h1, if_true] at h
      injection h with h1' h2
      injection h1' with hk he
      rw [← hk, ← he]
      simp only [updateFirstInterval, if_pos hmatch]
      simp only [entriesFor, List.filter_cons]
      have h3 : (decide
          (({ e' with interval := interval } : telemetryEntry).subjectId = id))
          = true := by simpa using hmatch
      simp [entriesFor, h3, h2]
    · have h1 : (decide (e'.subjectId = id)) = false := by simp [hmatch]
      simp only [h1, Bool.false_eq_true, if_false] at h
      simp only [updateFirstInterval, if_neg hmatch]
      simp only [entriesFor, List.filter_cons, h1, Bool.false_eq_true, if_false]
      exact ih h

/-! ## Claim C4: one scheduler entry per subject id -/

/-- **C4.**  Starting from any scheduler without an entry for `X` (and with
a fresh insertion timestamp), `addTelemetry(X, A)` followed by
`addTelemetry(X, B)` leaves exactly one entry for `X`: its interval is `B`,
its key — the next fire time — is still `now1`, the time scheduled by the
first call (the update path touches only the interval: even a different
topic or producer in the second call is ignored).  Moreover every sequence
of `addTelemetry`/`deleteTelemetry` calls preserves the invariant that at
most one entry per subject id exists (pairwise-distinct ids). -/
theorem c4_telemetry_single_entry :
    (∀ (s : telemetryScheduler) (X topic topic2 : List Nat)
       (payload payload2 : jsonElement) (A B now1 now2 : Nat),
      containsId s X = false → now1 ∉ s.map Prod.fst →
      entriesFor (addTelemetry (addTelemetry s A X topic payload now1)
          B X topic2 payload2 now2) X
        = [(now1, ⟨X, topic, B, payload⟩)]) ∧
    (∀ (s : telemetryScheduler) (ops : List telemetryOp),
      (schedulerIds s).Nodup →
      (schedulerIds (applyTelemetryOps s ops)).Nodup) := by
  constructor
  · intro s X topic topic2 payload payload2 A B now1 now2 hc hk
    have h1 : addTelemetry s A X topic payload now1
        = schedulerInsert s now1 ⟨X, topic, A, payload⟩ := by
      simp [addTelemetry, hc]
    have h2 : entriesFor (schedulerInsert s now1 ⟨X, topic, A, payload⟩) X
        = [(now1, ⟨X, topic, A, payload⟩)] :=
      entriesFor_insert_fresh hc now1 ⟨X, topic, A, payload⟩ rfl hk
    have hmem : (now1, (⟨X, topic, A, payload⟩ : telemetryEntry))
        ∈ schedulerInsert s now1 ⟨X, topic, A, payload⟩ := by
      have : (now1, (⟨X, topic, A, payload⟩ : telemetryEntry))
          ∈ entriesFor (schedulerInsert s now1 ⟨X, topic, A, payload⟩) X := by
        rw [h2]; simp
      exact List.mem_of_mem_filter this
    have hcontains : containsId
        (schedulerInsert s now1 ⟨X, topic, A, payload⟩) X = true := by
      rw [containsId_iff_mem]
      exact List.mem_map_of_mem _ hmem
    have h3 : addTelemetry (addTelemetry s A X topic payload now1)
        B X topic2 payload2 now2
        = updateFirstInterval (schedulerInsert s now1 ⟨X, topic, A, payload⟩)
            X B := by
      rw [h1]
      simp [addTelemetry, hcontains]
    rw [h3]
    exact entriesFor_update h2
  · intro s ops h
    induction ops generalizing s with
    | nil => exact h
    | cons op rest ih =>
      simp only [applyTelemetryOps, List.foldl_cons]
      exact ih (applyTelemetryOp s op) (nodup_step s op h)

/-- **C4 witness.**  Both parts evaluated: the two-add scenario from the
empty scheduler, and invariant preservation over a concrete call
sequence. -/
theorem c4_telemetry_single_entry_witness :
    entriesFor (addTelemetry (addTelemetry [] 100 (bs "app1")
        (bs "dab/device1/app-telemetry/metrics/app1") .jnull 0)
        250 (bs "app1") (bs "other") (.jbool true) 7) (bs "app1")
      = [(0, ⟨bs "app1", bs "dab/device1/app-telemetry/metrics/app1",
          250, .jnull⟩)] ∧
    (schedulerIds (applyTelemetryOps []
        [.add 100 (bs "app1") (bs "t") .jnull 0,
         .add 200 (bs "app1") (bs "t") .jnull 3,
         .del (bs "app2")])).Nodup :=
  ⟨c4_telemetry_single_entry.1 [] (bs "app1") (bs "dab/device1/app-telemetry/metrics/app1")
      (bs "other") .jnull (.jbool true) 100 250 0 7 rfl (by simp),
   c4_telemetry_single_entry.2 []
      [.add 100 (bs "app1") (bs "t") .jnull 0,
       .add 200 (bs "app1") (bs "t") .jnull 3,
       .del (bs "app2")] (by simp [schedulerIds])⟩

/-! ## Claim C5: the telemetry worker tick -/

/-- A concrete device-telemetry entry used by the counterexample. -/
def entryAtFive : telemetryEntry :=
  ⟨[], bs "dab/device1/device-telemetry/metrics", 100, .jnull⟩

/-- **C5, claim as stated, refuted.**  A pass on which the head entry's
next-fire time EQUALS the current time publishes nothing and invokes no
producer: the worker fires only on `begin()->first < now()` (strictly
less), not on `≤` as the claim states. -/
theorem c5_telemetry_tick_counterexample :
    telemetryTaskStep [(5, entryAtFive)] 5 5 = ([(5, entryAtFive)], []) := rfl

/-- **C5 (amended).**  On a pass where the queue is non-empty and the head
key is STRICTLY less than the current time, the worker publishes exactly
one message `{"payload": <producer result>, "topic": publishTopic}` (one
merged object) and reinserts the same entry with key `now2 + interval`,
`now2` being the clock reading taken at reschedule time, after the producer
ran; on a pass where the head key is `≥ now` — including equality — nothing
is published and the scheduler is unchanged, as on an empty queue. -/
theorem c5_telemetry_tick :
    (∀ (k : Nat) (e : telemetryEntry) (rest : telemetryScheduler)
       (now now2 : Nat),
      (k < now →
        telemetryTaskStep ((k, e) :: rest) now now2
          = (schedulerInsert rest (now2 + e.interval) e,
            [.jobj [(bs "payload", e.payload),
              (bs "topic", .jstr e.publishTopic)]])) ∧
      (now ≤ k →
        telemetryTaskStep ((k, e) :: rest) now now2 = ((k, e) :: rest, []))) ∧
    (∀ now now2 : Nat, telemetryTaskStep [] now now2 = ([], [])) := by
  refine ⟨fun k e rest now now2 => ⟨fun hlt => ?_, fun hge => ?_⟩,
    fun now now2 => rfl⟩
  · simp [telemetryTaskStep, hlt]
  · simp [telemetryTaskStep, Nat.not_lt_of_le hge]

/-- **C5 witness.**  A fire at `5 < 6` (rescheduled to `6 + 100`) and a
skip at `now = 5 ≤ 5`. -/
theorem c5_telemetry_tick_witness :
    telemetryTaskStep [(5, entryAtFive)] 6 6
      = ([(106, entryAtFive)],
        [.jobj [(bs "payload", .jnull),
          (bs "topic", .jstr (bs "dab/device1/device-telemetry/metrics"))]]) ∧
    telemetryTaskStep [(5, entryAtFive)] 5 5 = ([(5, entryAtFive)], []) :=
  ⟨(c5_telemetry_tick.1 5 entryAtFive [] 6 6).1 (by decide),
   (c5_telemetry_tick.1 5 entryAtFive [] 5 5).2 (by decide)⟩

/-! ## The multi-device bridge (`dabBridge::dispatch`, dabBridge.h
lines 52-97)

Adapter instances are modelled by their (total) `dispatch` functions —
`dabClient::dispatch` catches every exception, so `dabInterface::dispatch`
of a registered adapter returns a value.  The bridge registry is the
`std::map<std::string, unique_ptr<dabInterface>>` as a key-ordered
association list.  The result pairs the returned (or thrown) response with
the list of messages pushed through `publishCallback`, in call order;
`none` totalizes the undefined behaviour of the discovery branch on an
empty registry (`it = instances.begin(); it++` past the end, then
`instances.begin()->second` dereferenced). -/

/-- The custom `starts_with` helper (dabBridge.h lines 112-121). -/
def startsWithBytes : List Nat → List Nat → Bool
  | _, [] => true
  | [], _ :: _ => false
  | c :: s, p :: ps => if c = p then startsWithBytes s ps else false

/-- `find_first_of('/')` on a byte string: position of the first slash. -/
def findSlashPos : List Nat → Option Nat
  | [] => none
  | 47 :: _ => some 0
  | _ :: t => (findSlashPos t).map (· + 1)

/-- `dabBridge::dispatch`: no topic → 400; `dab/discovery` → return the
first instance's response and publish every other instance's response (in
map order); `dab/…` → extract the deviceId between the first and second
slash and delegate, 400 when the id is unknown; anything else → 400
malformed.  Thrown `dabException`s appear as `Except.error`. -/
def bridgeDispatch (instances : List (List Nat × (jsonElement → jsonElement)))
    (json : jsonElement) :
    Option (Except cppExc jsonElement × List jsonElement) :=
  if json.has (bs "topic") then
    match json.getKey (bs "topic") with
    | .error e => some (.error e, [])
    | .ok topicV =>
      match topicV.asString with
      | .error e => some (.error e, [])
      | .ok topic =>
        if topic = bs "dab/discovery" then
          match instances with
          | [] => none
          | first :: others =>
            some (.ok (first.2 json), others.map (fun p => p.2 json))
        else if startsWithBytes topic (bs "dab/") then
          match findSlashPos (topic.drop 4) with
          | none => some (.error (.dab 400 (bs "topic is malformed")), [])
          | some slashPos =>
            match lookupTopic instances ((topic.drop 4).take slashPos) with
            | some inst => some (.ok (inst json), [])
            | none => some (.error (.dab 400 (bs "deviceId does not exist")), [])
        else some (.error (.dab 400 (bs "topic is malformed")), [])
  else some (.error (.dab 400 (bs "no topic found")), [])

/-- Key-ordered bridge registry (what `std::map` maintains), pairwise. -/
def bridgeSorted : List (List Nat × (jsonElement → jsonElement)) → Bool
  | [] => true
  | p :: t => t.all (fun q => keyLt p.1 q.1) && bridgeSorted t

theorem has_of_getKey_ok {v : jsonElement} {k : List Nat} {x : jsonElement}
    (h : v.getKey k = .ok x) : v.has k = true := by
  unfold jsonElement.getKey at h
  unfold jsonElement.has
  match hl : v.lookupKey k with
  | none => rw [hl] at h; exact absurd h (by simp)
  | some .jnull => rw [hl] at h; exact absurd h (by simp)
  | some (.jbool b) => rfl
  | some (.jint i) => rfl
  | some (.jdbl d) => rfl
  | some (.jstr s) => rfl
  | some (.jarr l) => rfl
  | some (.jobj l) => rfl

theorem startsWithBytes_nil : ∀ (s : List Nat), startsWithBytes s [] = true
  | [] => rfl
  | _ :: _ => rfl

theorem startsWithBytes_append : ∀ (p x : List Nat),
    startsWithBytes (p ++ x) p = true
  | [], x => startsWithBytes_nil x
  | c :: p, x => by
    simp only [List.cons_append, startsWithBytes, if_pos rfl]
    exact startsWithBytes_append p x

theorem findSlashPos_append : ∀ (d : List Nat), (∀ b ∈ d, b ≠ 47) →
    ∀ r, findSlashPos (d ++ 47 :: r) = some d.length
  | [], _, r => rfl
  | b :: d, h, r => by
    have hb : b ≠ 47 := h b (by simp)
    have ih := findSlashPos_append d (fun c hc => h c (by simp [hc])) r
    rw [List.cons_append, findSlashPos.eq_def]
    split
    · rename_i heq; exact absurd heq (by simp)
    · rename_i heq
      injection heq with h1 _
      exact absurd h1 hb
    · rename_i c t heq
      injection heq with h1 h2
      subst h1
      rw [← h2, ih, Option.map_some']
      simp

/-- The split of `dab/<deviceId>/<rest>` performed by the bridge: with a
slash-free `deviceId`, the extracted id is exactly `deviceId`. -/
theorem bridge_topic_split (devId rest : List Nat) (h47 : ∀ b ∈ devId, b ≠ 47) :
    findSlashPos ((bs "dab/" ++ devId ++ 47 :: rest).drop 4) = some devId.length ∧
    (((bs "dab/" ++ devId ++ 47 :: rest).drop 4).take devId.length) = devId := by
  have hdrop : (bs "dab/" ++ devId ++ 47 :: rest).drop 4 = devId ++ 47 :: rest := by
    rw [List.append_assoc]
    exact List.drop_left (bs "dab/") (devId ++ 47 :: rest)
  constructor
  · rw [hdrop]
    exact findSlashPos_append devId h47 rest
  · rw [hdrop]
    exact List.take_left devId (47 :: rest)

theorem bridge_topic_ne_discovery (devId rest : List Nat) :
    bs "dab/" ++ devId ++ 47 :: rest ≠ bs "dab/discovery" := by
  intro h
  rw [List.append_assoc] at h
  have h2 : devId ++ 47 :: rest = bs "discovery" :=
    List.append_cancel_left (h.trans rfl)
  have h3 : (47 : Nat) ∈ devId ++ 47 :: rest := by simp
  rw [h2] at h3
  exact absurd h3 (by decide)

/-! ## Claim C7: unknown device at the bridge -/

/-- **C7.**  For every envelope whose topic is
`dab/<deviceId>/<rest>` with a slash-free `deviceId` that is not a key of
the bridge registry, bridge dispatch raises exactly
`dabException{400, "deviceId does not exist"}` (the `{status, error}` pair
every error is carried as) and invokes no adapter: nothing is published,
and the result holds for arbitrary adapter functions in the registry. -/
theorem c7_unknown_device :
    ∀ (instances : List (List Nat × (jsonElement → jsonElement)))
      (json : jsonElement) (devId rest : List Nat),
      json.getKey (bs "topic") = .ok (.jstr (bs "dab/" ++ devId ++ 47 :: rest)) →
      (∀ b ∈ devId, b ≠ 47) →
      lookupTopic instances devId = none →
      bridgeDispatch instances json
        = some (.error (.dab 400 (bs "deviceId does not exist")), []) := by
  intro instances json devId rest ht h47 hlook
  obtain ⟨hfind, htake⟩ := bridge_topic_split devId rest h47
  simp only [bridgeDispatch, has_of_getKey_ok ht, if_true, ht,
    jsonElement.asString, if_neg (bridge_topic_ne_discovery devId rest)]
  rw [show startsWithBytes (bs "dab/" ++ devId ++ 47 :: rest) (bs "dab/")
      = true from by
    rw [List.append_assoc]
    exact startsWithBytes_append (bs "dab/") (devId ++ 47 :: rest)]
  simp only [if_true, hfind, htake, hlook]

/-- **C7 witness.**  Scenario 1 of the specification: `dab/XYZ/version` on
a bridge with no device `XYZ` (empty registry). -/
theorem c7_unknown_device_witness :
    bridgeDispatch [] (.jobj [(bs "topic", .jstr (bs "dab/XYZ/version"))])
      = some (.error (.dab 400 (bs "deviceId does not exist")), []) :=
  c7_unknown_device [] (.jobj [(bs "topic", .jstr (bs "dab/XYZ/version"))])
    (bs "XYZ") (bs "version") rfl (by decide) rfl

/-! ## Claim C9: discovery fan-out and the empty-registry hazard -/

/-- **C9.**  Bridge dispatch of `dab/discovery` is well-defined only with
at least one registered instance: on an empty registry the code increments
`begin()` past the end and dereferences it — the totalized model's `none`
branch; with instances present (in ascending `deviceId` order, as the
`std::map` keeps them) the reply is the first instance's response and every
remaining instance's response is pushed through the publish callback, in
that ascending order. -/
theorem c9_discovery_fanout :
    ∀ (instances : List (List Nat × (jsonElement → jsonElement)))
      (json : jsonElement),
      json.getKey (bs "topic") = .ok (.jstr (bs "dab/discovery")) →
      bridgeSorted instances = true →
      (instances = [] → bridgeDispatch instances json = none) ∧
      (∀ first others, instances = first :: others →
        bridgeDispatch instances json
          = some (.ok (first.2 json), others.map (fun p => p.2 json))) := by
  intro instances json ht _
  constructor
  · rintro rfl
    simp [bridgeDispatch, has_of_getKey_ok ht, ht, jsonElement.asString]
  · rintro first others rfl
    simp [bridgeDispatch, has_of_getKey_ok ht, ht, jsonElement.asString]

/-- **C9 witness.**  Discovery on the empty registry reaches the undefined
branch; on a two-instance registry it returns the first response and
publishes the second. -/
theorem c9_discovery_fanout_witness :
    bridgeDispatch [] (.jobj [(bs "topic", .jstr (bs "dab/discovery"))]) = none ∧
    bridgeDispatch
        [(bs "D1", fun _ => .jstr (bs "one")), (bs "D2", fun _ => .jstr (bs "two"))]
        (.jobj [(bs "topic", .jstr (bs "dab/discovery"))])
      = some (.ok (.jstr (bs "one")), [.jstr (bs "two")]) :=
  ⟨(c9_discovery_fanout [] (.jobj [(bs "topic", .jstr (bs "dab/discovery"))])
      rfl rfl).1 rfl,
   (c9_discovery_fanout
      [(bs "D1", fun _ => .jstr (bs "one")), (bs "D2", fun _ => .jstr (bs "two"))]
      (.jobj [(bs "topic", .jstr (bs "dab/discovery"))]) rfl (by decide)).2
      (bs "D1", fun _ => .jstr (bs "one")) [(bs "D2", fun _ => .jstr (bs "two"))]
      rfl⟩

/-! ## Claim C10: the mutable numeric index operator -/

/-- `jsonElement::operator[](integral)` (part_000 lines 498-516) after the
auto-promotion of a non-array value to an empty array: grow by exactly one
default (null) element when the index equals the current length, and hand
back `arr[index]` — an unchecked `std::vector` access that is out of bounds
(modelled `none`) whenever the index exceeds the (possibly grown) length. -/
def indexArrayMut (v : jsonElement) (i : Nat) : Option (List jsonElement) :=
  let arr := match v with
    | .jarr l => l
    | _ => []
  if i = arr.length then some (arr ++ [.jnull])
  else if i < arr.length then some arr
  else none

/-- **C10.**  The mutable numeric index grows the array only when the index
equals the current length (appending one default element); any index at
most the current length is an in-bounds access, and any index strictly
greater than the current length is an out-of-bounds vector access (the
totalized model's `none`), so callers may only extend an array one position
past its end.  Non-array values are first replaced by an empty array. -/
theorem c10_index_one_past_end :
    (∀ (l : List jsonElement) (i : Nat),
      (i = l.length → indexArrayMut (.jarr l) i = some (l ++ [.jnull])) ∧
      (i < l.length → indexArrayMut (.jarr l) i = some l) ∧
      (i ≤ l.length → (indexArrayMut (.jarr l) i).isSome = true) ∧
      (l.length < i → indexArrayMut (.jarr l) i = none)) ∧
    (∀ i : Nat, indexArrayMut .jnull i = indexArrayMut (.jarr []) i) := by
  constructor
  · intro l i
    refine ⟨fun h => ?_, fun h => ?_, fun h => ?_, fun h => ?_⟩
    · simp [indexArrayMut, h]
    · have hne : i ≠ l.length := by omega
      simp [indexArrayMut, hne, h]
    · rcases Nat.lt_or_ge i l.length with h' | h'
      · have hne : i ≠ l.length := by omega
        simp [indexArrayMut, hne, h']
      · have heq : i = l.length := by omega
        simp [indexArrayMut, heq]
    · have hne : i ≠ l.length := by omega
      have hnlt : ¬ i < l.length := by omega
      simp [indexArrayMut, hne, hnlt]
  · intro i
    rfl

/-- **C10 witness.**  On `[null]` (length 1): index 0 reads in place,
index 1 grows by one null, index 2 is out of bounds. -/
theorem c10_index_one_past_end_witness :
    indexArrayMut (.jarr [.jnull]) 0 = some [.jnull] ∧
    indexArrayMut (.jarr [.jnull]) 1 = some [.jnull, .jnull] ∧
    indexArrayMut (.jarr [.jnull]) 2 = none :=
  ⟨(c10_index_one_past_end.1 [.jnull] 0).2.1 (by decide),
   (c10_index_one_past_end.1 [.jnull] 1).1 (by decide),
   (c10_index_one_past_end.1 [.jnull] 2).2.2.2 (by decide)⟩

end DAB
